import Mathlib

/-!
Verification of the Stream-Gate local networking backend (Tauri/Rust
implementation) against its natural-language specification.

The Rust sources are shallowly embedded: pure helper functions become Lean
functions over `List Nat` (Rust strings are modelled as their byte sequences,
or as their Unicode-scalar sequences where the source iterates over `char`s);
stateful services become explicit state-passing functions; fallible code
returns `Option`/`Except`; the `u64` traffic counters use `Nat` with explicit
`% 2 ^ 64` where the source relies on wrapping `fetch_add`.
-/

namespace StreamGate

/-- Byte-string model of Rust `String`/`&str`: the list of UTF-8 bytes. -/
abbrev Str := List Nat

/-- UTF-8 encoding of one Unicode scalar value. -/
def utf8Bytes (c : Nat) : List Nat :=
  if c < 0x80 then [c]
  else if c < 0x800 then [0xC0 + c / 64, 0x80 + c % 64]
  else if c < 0x10000 then
    [0xE0 + c / 4096, 0x80 + (c / 64) % 64, 0x80 + c % 64]
  else
    [0xF0 + c / 262144, 0x80 + (c / 4096) % 64, 0x80 + (c / 64) % 64,
     0x80 + c % 64]

/-- Convenience: the UTF-8 bytes of a Lean string literal. -/
def S (s : String) : Str := s.toList.flatMap (fun c => utf8Bytes c.toNat)

/-- Unicode-scalar-value model of a Rust string, used for functions that
iterate with `chars()` (`strip_unsupported` in `process_manager.rs`). -/
def P (s : String) : List Nat := s.toList.map Char.toNat

/-! ## String utilities shared by the settings and DNS services -/

/-- Does `l` start with the pattern `pat`? -/
def listStartsWith : List Nat → List Nat → Bool
  | [], _ => true
  | _ :: _, [] => false
  | p :: ps, c :: cs => p = c && listStartsWith ps cs

/-- Substring test, modelling Rust `str::contains` (for ASCII needles the
scalar-value and byte-level readings agree). -/
def containsSub (pat : List Nat) : List Nat → Bool
  | [] => pat.isEmpty
  | c :: rest => listStartsWith pat (c :: rest) || containsSub pat rest

/-- Model of Rust `str::split(sep)` collected into a `Vec`: the list of
(possibly empty) byte segments between occurrences of the separator. -/
def splitOnByte (sep : Nat) : Str → List Str
  | [] => [[]]
  | c :: rest =>
    if c = sep then [] :: splitOnByte sep rest
    else
      match splitOnByte sep rest with
      | [] => [[c]]
      | h :: t => (c :: h) :: t

/-- Joining with the separator, the left inverse of `splitOnByte`. -/
def joinWithByte (sep : Nat) : List Str → Str
  | [] => []
  | [l] => l
  | l :: ls => l ++ sep :: joinWithByte sep ls

/-- ASCII digit test. -/
def isDigitB (c : Nat) : Bool := 48 ≤ c ∧ c ≤ 57

/-- Decimal value of a digit string. -/
def natValue (l : Str) : Nat := l.foldl (fun acc c => acc * 10 + (c - 48)) 0

/-- Model of Rust `uN::from_str` for an unsigned type with maximum `bound`:
an optional leading `+`, then a non-empty run of ASCII digits whose value
fits.  (The source checks overflow at every digit, but intermediate values
never exceed the final value, so checking the final value is equivalent.) -/
def parseUInt (bound : Nat) (s : Str) : Option Nat :=
  let digits := if s.head? = some 43 then s.tail else s
  if digits ≠ [] ∧ digits.all isDigitB then
    if natValue digits ≤ bound then some (natValue digits) else none
  else none

/-- Rust `u8::from_str` (`"x".parse::<u8>()`). -/
def parseU8 (s : Str) : Option Nat := parseUInt 255 s

/-- Rust `u16::from_str` (`"x".parse::<u16>()`). -/
def parseU16 (s : Str) : Option Nat := parseUInt 65535 s

/-- Model of Rust std's IPv4 octet syntax: non-empty digits, no leading
zero except `"0"` itself, value at most 255 (no `+` sign). -/
def isIpv4Octet (p : Str) : Bool :=
  p ≠ [] && p.all isDigitB && (p.head? = some 48 → p = [48]) &&
  natValue p ≤ 255

/-- Model of `Ipv4Addr::from_str`: four dot-separated octets. -/
def isIpv4Str (s : Str) : Bool :=
  match splitOnByte 46 s with
  | [a, b, c, d] => isIpv4Octet a && isIpv4Octet b && isIpv4Octet c &&
      isIpv4Octet d
  | _ => false

/-- Model of `IpAddr::from_str` as used by `DnsService::parse_server`.  Only
the IPv4 alternative is embedded; the source also accepts IPv6 literals,
which none of the claims exercise (an IPv6 address containing `:` would in
any case be cut apart by `parse_server`'s split on `:` before validation). -/
def isIpAddrStr (s : Str) : Bool := isIpv4Str s

/-! ## Base64 (the `base64` crate's `general_purpose::STANDARD` engine, as
used by `export_configs`/`import_configs` in settings.rs) -/

/-- The standard Base64 alphabet: sextet to ASCII. -/
def b64encChar (n : Nat) : Nat :=
  if n < 26 then 65 + n
  else if n < 52 then 97 + (n - 26)
  else if n < 62 then 48 + (n - 52)
  else if n = 62 then 43
  else 47

/-- ASCII to sextet; `none` outside the alphabet (including `=`). -/
def b64decChar (c : Nat) : Option Nat :=
  if 65 ≤ c ∧ c ≤ 90 then some (c - 65)
  else if 97 ≤ c ∧ c ≤ 122 then some (26 + (c - 97))
  else if 48 ≤ c ∧ c ≤ 57 then some (52 + (c - 48))
  else if c = 43 then some 62
  else if c = 47 then some 63
  else none

/-- Base64 encoding with canonical `=` padding (`STANDARD.encode`). -/
def b64encode : List Nat → List Nat
  | a :: b :: c :: rest =>
    b64encChar (a / 4) :: b64encChar ((a % 4) * 16 + b / 16) ::
    b64encChar ((b % 16) * 4 + c / 64) :: b64encChar (c % 64) ::
    b64encode rest
  | [a, b] =>
    [b64encChar (a / 4), b64encChar ((a % 4) * 16 + b / 16),
     b64encChar ((b % 16) * 4), 61]
  | [a] => [b64encChar (a / 4), b64encChar ((a % 4) * 16), 61, 61]
  | [] => []

/-- Strict Base64 decoding (`STANDARD.decode`): the length must be a
multiple of four, `=` may appear only as canonical padding of the final
group, and non-zero trailing bits are rejected
(`decode_allow_trailing_bits` is off in the `STANDARD` engine). -/
def b64decode : List Nat → Option (List Nat)
  | [] => some []
  | c0 :: c1 :: c2 :: c3 :: rest =>
    match b64decChar c0, b64decChar c1 with
    | some n0, some n1 =>
      if c2 = 61 ∧ c3 = 61 ∧ rest = [] then
        if n1 % 16 = 0 then some [n0 * 4 + n1 / 16] else none
      else if c3 = 61 ∧ rest = [] then
        match b64decChar c2 with
        | some n2 =>
          if n2 % 4 = 0 then
            some [n0 * 4 + n1 / 16, (n1 % 16) * 16 + n2 / 4]
          else none
        | none => none
      else
        match b64decChar c2, b64decChar c3 with
        | some n2, some n3 =>
          (b64decode rest).map (fun bs =>
            (n0 * 4 + n1 / 16) :: ((n1 % 16) * 16 + n2 / 4) ::
            ((n2 % 4) * 64 + n3) :: bs)
        | _, _ => none
    | _, _ => none
  | _ => none

/-! ## Configuration import/export (`settings.rs:438-557`)

`export_configs` builds, per configuration, the JSON object
`{"remark": …, "domain": …, "country"?: …, "socks"?: {"username", "password"}}`
(keys in insertion order; the key order is irrelevant because import reads
fields by name), Base64-encodes its UTF-8 text and emits the line
`ssgate:<remark>//<base64>`; lines are joined with `\n`.  `import_configs`
trims each line, keeps those starting with `ssgate:`, splits each at the
first `//`, Base64-decodes the right part, parses the JSON and extracts the
fields by name.  Configurations are modelled without their UUID `id` field,
which import regenerates freshly. -/

/-- `SocksAuth` (settings.rs:108-113). -/
structure SocksAuthM where
  username : Str
  password : Str
deriving DecidableEq, Repr

/-- `ConfigItem` (settings.rs:118-126) without the UUID `id`. -/
structure ConfigItemM where
  remark : Str
  domain : Str
  country : Option Str
  socks : Option SocksAuthM
deriving DecidableEq, Repr

/-- Lowercase hexadecimal digit. -/
def hexDigit (n : Nat) : Nat := if n < 10 then 48 + n else 87 + n

/-- serde_json's escaping of one byte inside a JSON string: `"` and `\` are
backslash-escaped, the control characters BS HT LF FF CR get their short
escapes, other control bytes become `\u00xx`, and everything else is copied
verbatim. -/
def escapeByte (c : Nat) : List Nat :=
  if c = 34 then [92, 34]
  else if c = 92 then [92, 92]
  else if c = 8 then [92, 98]
  else if c = 9 then [92, 116]
  else if c = 10 then [92, 110]
  else if c = 12 then [92, 102]
  else if c = 13 then [92, 114]
  else if c < 32 then [92, 117, 48, 48, hexDigit (c / 16), hexDigit (c % 16)]
  else [c]

/-- JSON-escape a byte string. -/
def jsonEscape (s : Str) : Str := s.flatMap escapeByte

/-- A JSON string literal: quote, escaped content, quote. -/
def jsonStr (s : Str) : Str := 34 :: (jsonEscape s ++ [34])

/-- The JSON text `export_configs` serializes for one configuration
(settings.rs:444-457). -/
def payloadJson (c : ConfigItemM) : Str :=
  S "\x7b\"remark\":" ++ jsonStr c.remark ++
  S ",\"domain\":" ++ jsonStr c.domain ++
  (match c.country with
   | some co => S ",\"country\":" ++ jsonStr co
   | none => []) ++
  (match c.socks with
   | some sa => S ",\"socks\":\x7b\"username\":" ++ jsonStr sa.username ++
       S ",\"password\":" ++ jsonStr sa.password ++ S "\x7d"
   | none => []) ++
  S "\x7d"

/-- One exported `ssgate:<remark>//<base64>` line (settings.rs:458-460). -/
def exportLine (c : ConfigItemM) : Str :=
  S "ssgate:" ++ c.remark ++ S "//" ++ b64encode (payloadJson c)

/-- Model of `SettingsService::export_configs`: one line per saved
configuration, joined with `\n`. -/
def export_configs (cs : List ConfigItemM) : Str :=
  joinWithByte 10 (cs.map exportLine)

/-- Value of a hexadecimal digit character. -/
def hexVal (c : Nat) : Option Nat :=
  if 48 ≤ c ∧ c ≤ 57 then some (c - 48)
  else if 97 ≤ c ∧ c ≤ 102 then some (c - 87)
  else if 65 ≤ c ∧ c ≤ 70 then some (c - 55)
  else none

/-- JSON string-body parser (after the opening quote): returns the unescaped
content and the remainder after the closing quote.  This models serde_json's
string lexer on the escapes the serializer emits; a `\u00xx` escape with
`xx < 0x80` denotes that single byte. -/
def parseJsonStrAux : Str → Option (Str × Str)
  | [] => none
  | c :: rest =>
    if c = 34 then some ([], rest)
    else if c = 92 then
      match rest with
      | [] => none
      | e :: rest2 =>
        if e = 34 then (parseJsonStrAux rest2).map (fun p => (34 :: p.1, p.2))
        else if e = 92 then
          (parseJsonStrAux rest2).map (fun p => (92 :: p.1, p.2))
        else if e = 98 then
          (parseJsonStrAux rest2).map (fun p => (8 :: p.1, p.2))
        else if e = 116 then
          (parseJsonStrAux rest2).map (fun p => (9 :: p.1, p.2))
        else if e = 110 then
          (parseJsonStrAux rest2).map (fun p => (10 :: p.1, p.2))
        else if e = 102 then
          (parseJsonStrAux rest2).map (fun p => (12 :: p.1, p.2))
        else if e = 114 then
          (parseJsonStrAux rest2).map (fun p => (13 :: p.1, p.2))
        else if e = 117 then
          match rest2 with
          | h1 :: h2 :: h3 :: h4 :: rest3 =>
            match hexVal h1, hexVal h2, hexVal h3, hexVal h4 with
            | some a, some b, some c', some d =>
              (parseJsonStrAux rest3).map (fun p =>
                ((((a * 16 + b) * 16 + c') * 16 + d) :: p.1, p.2))
            | _, _, _, _ => none
          | _ => none
        else none
    else (parseJsonStrAux rest).map (fun p => (c :: p.1, p.2))

/-- Parse a JSON string literal (with its opening quote). -/
def parseJsonStr (l : Str) : Option (Str × Str) :=
  match l with
  | 34 :: rest => parseJsonStrAux rest
  | _ => none

/-- Consume an expected literal, returning the remainder. -/
def expectLit : Str → Str → Option Str
  | [], l => some l
  | _ :: _, [] => none
  | p :: ps, c :: cs => if p = c then expectLit ps cs else none

/-- The fields the JSON-level extraction of `import_configs` can observe. -/
structure PayloadM where
  remark : Option Str
  domain : Option Str
  country : Option Str
  socks : Option SocksAuthM
deriving DecidableEq, Repr

/-- Parse the `{"username": …, "password": …}` object of a `socks` field. -/
def parseSocksObj (l : Str) : Option (SocksAuthM × Str) :=
  match expectLit (S "\x7b\"username\":") l with
  | none => none
  | some l1 =>
    match parseJsonStr l1 with
    | none => none
    | some (u, l2) =>
      match expectLit (S ",\"password\":") l2 with
      | none => none
      | some l3 =>
        match parseJsonStr l3 with
        | none => none
        | some (pw, l4) =>
          match expectLit (S "\x7d") l4 with
          | none => none
          | some l5 => some (⟨u, pw⟩, l5)

/-- Model of `serde_json::from_str` composed with the by-name field
extraction of `import_configs` (settings.rs:497-509), on the object grammar
`export_configs` emits.  On that grammar the composite behaves exactly like
serde_json followed by the `val.get(…)` chain; JSON inputs outside this
grammar (reordered keys, extra whitespace, other value types) are not
modelled, as no claim exercises them. -/
def parsePayload (l : Str) : Option PayloadM :=
  match expectLit (S "\x7b\"remark\":") l with
  | none => none
  | some l1 =>
    match parseJsonStr l1 with
    | none => none
    | some (remark, l2) =>
      match expectLit (S ",\"domain\":") l2 with
      | none => none
      | some l3 =>
        match parseJsonStr l3 with
        | none => none
        | some (domain, l4) =>
          let countryStep : Option (Option Str × Str) :=
            match expectLit (S ",\"country\":") l4 with
            | some l5 => (parseJsonStr l5).map (fun p => (some p.1, p.2))
            | none => some (none, l4)
          match countryStep with
          | none => none
          | some (country, l6) =>
            let socksStep : Option (Option SocksAuthM × Str) :=
              match expectLit (S ",\"socks\":") l6 with
              | some l7 => (parseSocksObj l7).map (fun p => (some p.1, p.2))
              | none => some (none, l6)
            match socksStep with
            | none => none
            | some (socks, l8) =>
              if l8 = S "\x7d" then
                some ⟨some remark, some domain, country, socks⟩
              else none

/-- Split a line at the first occurrence of `//` (Rust `line.find("//")`
followed by the two slices, settings.rs:488-490). -/
def splitFirst2 : Str → Option (Str × Str)
  | [] => none
  | c :: rest =>
    if c = 47 ∧ rest.head? = some 47 then some ([], rest.tail)
    else (splitFirst2 rest).map (fun p => (c :: p.1, p.2))

/-- ASCII whitespace, the fragment of Rust `char::is_whitespace` relevant to
the byte strings at hand. -/
def wsByte (c : Nat) : Bool :=
  c = 9 || c = 10 || c = 11 || c = 12 || c = 13 || c = 32

/-- Drop leading whitespace. -/
def trimLeft : Str → Str
  | [] => []
  | c :: rest => if wsByte c then trimLeft rest else c :: rest

/-- Model of Rust `str::trim`. -/
def rustTrim (l : Str) : Str := ((trimLeft ((trimLeft l).reverse)).reverse)

/-- Processing of one kept line by `import_configs` (settings.rs:485-536):
split at the first `//`, strip the `ssgate:` prefix as the fallback remark,
Base64-decode, parse the JSON payload, require `domain`, and default the
remark to the prefix; `none` stands for `error_count += 1`. -/
def importLine (line : Str) : Option ConfigItemM :=
  match splitFirst2 line with
  | none => none
  | some (pre, b64part) =>
    let remarkPre := (expectLit (S "ssgate:") pre).getD (S "Imported")
    match b64decode b64part with
    | none => none
    | some bytes =>
      match parsePayload bytes with
      | none => none
      | some p =>
        match p.domain with
        | none => none
        | some d =>
          some ⟨p.remark.getD remarkPre, d, p.country, p.socks⟩

/-- Model of `SettingsService::import_configs`: reject blank input, split
into lines, trim, keep `ssgate:`-prefixed lines, process each line; returns
the imported configurations (in order, to be appended with fresh UUIDs) and
the error count, or `none` for the `"Invalid import data"` error. -/
def import_configs (data : Str) : Option (List ConfigItemM × Nat) :=
  if rustTrim data = [] then none
  else
    let lines := ((splitOnByte 10 data).map rustTrim).filter
      (fun l => listStartsWith (S "ssgate:") l)
    let results := lines.map importLine
    some (results.filterMap id, (results.filter (fun r => r.isNone)).length)

/-- All bytes of the string are actual bytes (< 256). -/
def Ok256 (l : Str) : Prop := ∀ b ∈ l, b < 256

instance (l : Str) : Decidable (Ok256 l) :=
  inferInstanceAs (Decidable (∀ b ∈ l, b < 256))

/-- The conditions under which an exported configuration survives the
ssgate line framing: its fields are byte strings, and its remark — the only
field embedded verbatim in the line — contains no `//`, does not end in `/`
(either would shift the first `//` found by import), and contains no
newline (which would break the line structure). -/
def GoodConfig (c : ConfigItemM) : Prop :=
  Ok256 c.remark ∧ Ok256 c.domain ∧
  (∀ co, c.country = some co → Ok256 co) ∧
  (∀ sa, c.socks = some sa → Ok256 sa.username ∧ Ok256 sa.password) ∧
  containsSub [47, 47] c.remark = false ∧
  c.remark.getLast? ≠ some 47 ∧
  (10 : Nat) ∉ c.remark

/-! ## Resolver validation (`src-tauri/src/services/settings.rs:410-435`) -/

/-- Model of `SettingsService::validate_resolver`: split on `:` into exactly
two parts; the first must consist of exactly four dot-separated components
each parsing as a `u8`; the second must parse as a `u16` that is positive. -/
def validate_resolver (s : Str) : Bool :=
  match splitOnByte 58 s with
  | [ipStr, portStr] =>
    let ipParts := splitOnByte 46 ipStr
    if ipParts.length = 4 then
      if ipParts.all (fun p => (parseU8 p).isSome) then
        match parseU16 portStr with
        | some port => decide (0 < port)
        | none => false
      else false
    else false
  | _ => false

/-! ## DNS server parsing (`src-tauri/src/services/dns_service.rs:72-91`) -/

/-- Model of `DnsService::parse_server`: split on `:`; the port is taken
from the second segment when present, with `.parse::<u16>().unwrap_or(53)`
substituting 53 on any parse failure; the first segment must parse as an IP
address. -/
def parse_server (s : Str) : Option (Str × Nat) :=
  match splitOnByte 58 s with
  | [] => none
  | ip :: rest =>
    let port := match rest with
      | p1 :: _ => (parseU16 p1).getD 53
      | [] => 53
    if isIpAddrStr ip then some (ip, port) else none

/-! ## Process manager (`src-tauri/src/services/process_manager.rs`) -/

/-- Facts about one run of `ProcessManager::start`: whether the spawn call
succeeded, whether the child process exited during the 2-second wait, and
whether a concurrent `stop()` took the child handle during that wait. -/
structure PmRun where
  spawnOk : Bool
  childExitedWithin2s : Bool
  stopCalledDuringWait : Bool

/-- Model of `ProcessManager::is_running`: true iff the child-handle slot is
occupied.  The source deliberately does not call `try_wait`; it only checks
that a handle is held (`if let Some(ref _c) = *child { return true; }`). -/
def pmIsRunning (childSlot : Option Unit) : Bool := childSlot.isSome

/-- Model of `ProcessManager::start` (process_manager.rs:162-239).  On spawn
failure it returns the spawn error.  Otherwise the child handle is stored in
the slot, the task sleeps 2 seconds — during which the child may exit, which
does not modify the slot, while a concurrent `stop()` would `take` the slot —
and then success is decided by `is_running`, i.e. by slot occupancy alone. -/
def pmStart (r : PmRun) : Except String Unit :=
  if r.spawnOk = false then
    .error "Failed to spawn process"
  else
    let slotAfterSpawn : Option Unit := some ()
    let slotAfterWait : Option Unit :=
      if r.stopCalledDuringWait then none else slotAfterSpawn
    if pmIsRunning slotAfterWait then .ok ()
    else .error "Stream Gate client failed to start (exited early)"

/-! ## Traffic counters (`src-tauri/src/services/proxy_service.rs`) -/

/-- The four `AtomicU64` counters of `TrafficCounter`. -/
structure TrafficCounter where
  uplink : Nat
  downlink : Nat
  prevUplink : Nat
  prevDownlink : Nat

/-- Model of `u64` wrap-around used by `fetch_add`. -/
def u64Mod (n : Nat) : Nat := n % 2 ^ 64

/-- Model of `TrafficCounter::add_uplink` (`fetch_add`, wrapping on `u64`). -/
def addUplink (t : TrafficCounter) (bytes : Nat) : TrafficCounter :=
  { t with uplink := u64Mod (t.uplink + bytes) }

/-- Model of `TrafficCounter::add_downlink`. -/
def addDownlink (t : TrafficCounter) (bytes : Nat) : TrafficCounter :=
  { t with downlink := u64Mod (t.downlink + bytes) }

/-- Model of `TrafficCounter::get_and_reset_speed` (proxy_service.rs:78-88):
read both counters, swap them into the `prev` slots, and return the
saturating differences.  Truncated subtraction on `Nat` is exactly
`u64::saturating_sub`. -/
def getAndResetSpeed (t : TrafficCounter) : (Nat × Nat) × TrafficCounter :=
  ((t.uplink - t.prevUplink, t.downlink - t.prevDownlink),
   { t with prevUplink := t.uplink, prevDownlink := t.downlink })

/-- Mode of the character iterator in `strip_unsupported`
(process_manager.rs:28-59): either normal scanning, or inside an ANSI CSI
sequence (after consuming `ESC [`), skipping until an ASCII-alphabetic
terminator. -/
inductive StripMode
  | normal
  | insideCsi

/-- ASCII alphabetic test (`char::is_ascii_alphabetic`). -/
def isAsciiAlpha (c : Nat) : Bool :=
  (65 ≤ c ∧ c ≤ 90) ∨ (97 ≤ c ∧ c ≤ 122)

/-- Emoji-block test of `strip_unsupported` (process_manager.rs:49-52). -/
def isEmojiBlock (c : Nat) : Bool :=
  (0x1F300 ≤ c ∧ c ≤ 0x1F9FF) ∨ (0x2600 ≤ c ∧ c ≤ 0x26FF) ∨
  (0x2700 ≤ c ∧ c ≤ 0x27BF) ∨ (0x1F1E0 ≤ c ∧ c ≤ 0x1F1FF)

/-- Worker of `strip_unsupported`, over Unicode scalar values.  `ESC [`
enters CSI-skipping mode; an `ESC` not followed by `[` falls through to the
emoji check (and, not being in an emoji block, is kept). -/
def stripGo : StripMode → List Nat → List Nat
  | _, [] => []
  | .insideCsi, c :: rest =>
    if isAsciiAlpha c then stripGo .normal rest else stripGo .insideCsi rest
  | .normal, 27 :: 91 :: rest => stripGo .insideCsi rest
  | .normal, c :: rest =>
    if isEmojiBlock c then stripGo .normal rest
    else c :: stripGo .normal rest

/-- Model of `strip_unsupported` (process_manager.rs:28-59): drop ANSI CSI
sequences (`ESC [ … letter`) and the four emoji blocks; a lone `ESC` not
followed by `[` falls through the emoji check and is kept. -/
def stripUnsupported (l : List Nat) : List Nat := stripGo .normal l

/-- Effects of handling one stderr line of the tunnel child
(process_manager.rs:199-221): the `stream-error` payload, whether the
port-conflict warning fired, and the `kill_ports` invocations performed. -/
structure StderrEffect where
  emitted : List Nat
  warnedPortConflict : Bool
  killPortsCalls : List (List Nat)
deriving DecidableEq, Repr

/-- Model of the per-line body of the stderr reader task spawned by
`ProcessManager::start`.  The line is filtered by `strip_unsupported` and
emitted as `stream-error`; a line containing "Address already in use" or
"EADDRINUSE" makes the task log a warning — but the source never calls
`kill_ports` there (the comment at process_manager.rs:208-211 explains the
closure cannot reach `self`), so the invocation list is always empty. -/
def handleStderrLine (line : List Nat) : StderrEffect :=
  let filtered := stripUnsupported line
  { emitted := filtered,
    warnedPortConflict :=
      containsSub (P "Address already in use") filtered ||
      containsSub (P "EADDRINUSE") filtered,
    killPortsCalls := [] }

/-! ## DNS scan cancellation (`src-tauri/src/services/dns_service.rs`) -/

/-- The shared scan state: the generational `scan_id` and the `is_scanning`
flag (dns_service.rs:52-53). -/
structure ScanSys where
  scanId : Nat
  isScanning : Bool
deriving DecidableEq, Repr

/-- Kinds of scan events relevant to cancellation. -/
inductive ScanEventKind
  | result
  | progress
  | complete
deriving DecidableEq, Repr

/-- An emitted scan event, tagged with the scan id its worker carried. -/
structure Emission where
  carried : Nat
  kind : ScanEventKind
deriving DecidableEq, Repr

/-- Atomic steps of the scan subsystem.  `emitGuarded c` is a worker's
guarded emission site (dns_service.rs:543-554 and 498-506): under the lock it
compares its carried id `c` with the current `scan_id` and emits
`dns-scan-result` + `dns-scan-progress` only on equality.  `finishScan c` is
the end of the supervising task (dns_service.rs:564-575): clear
`is_scanning`, then emit `dns-scan-complete` only if `c` is still current.
`startScan` models dns_service.rs:421-438 (reject when already scanning,
else set the flag and increment the id); `stopScan` models
dns_service.rs:581-588. -/
inductive ScanAction
  | startScan
  | stopScan
  | emitGuarded (carried : Nat)
  | finishScan (carried : Nat)
deriving DecidableEq, Repr

/-- One atomic step: next state and the events it emits.  The source checks
the guard and emits while holding the `scan_id` read lock immediately before
the emit, which this step granularity reflects. -/
def scanStep (st : ScanSys) : ScanAction → ScanSys × List Emission
  | .startScan =>
    if st.isScanning then (st, [])
    else ({ scanId := st.scanId + 1, isScanning := true }, [])
  | .stopScan => ({ scanId := st.scanId + 1, isScanning := false }, [])
  | .emitGuarded c =>
    (st, if st.scanId = c then [⟨c, .result⟩, ⟨c, .progress⟩] else [])
  | .finishScan c =>
    ({ st with isScanning := false },
     if st.scanId = c then [⟨c, .complete⟩] else [])

/-- Run a sequence of steps, collecting all emissions in order. -/
def scanRun (st : ScanSys) : List ScanAction → ScanSys × List Emission
  | [] => (st, [])
  | a :: rest =>
    let p := scanStep st a
    let q := scanRun p.1 rest
    (q.1, p.2 ++ q.2)

/-! ## Slipstream scoring (`src-tauri/src/services/dns_service.rs:277-367`)

`test_slipstream` issues 15 TXT queries; a query is "successful" when the
resolver returns anything other than a transport error or timeout, and the
elapsed milliseconds of successful queries are pushed onto `response_times`.
The scoring below is a function of that list (`n = response_times.len()`),
with latencies embedded as rationals in place of `f64` (all comparisons the
claims exercise are exact). -/

/-- Mean latency (`avg_time`). -/
def slipMean (ts : List ℚ) : ℚ := ts.sum / (ts.length : ℚ)

/-- Worst latency (`max_time`).  The source folds `f64::max` from a NaN
seed, and `f64::max` ignores the NaN, so on a non-empty list this is the
plain maximum; the empty case is unreachable (early return). -/
def slipMax : List ℚ → ℚ
  | [] => 0
  | a :: rest => rest.foldl max a

/-- Sample variance (`std_dev²`): squared deviations from the mean divided
by `n − 1`, and `0` when `n ≤ 1`. -/
def slipVar (ts : List ℚ) : ℚ :=
  if 1 < ts.length then
    ((ts.map (fun t => (t - slipMean ts) ^ 2)).sum) / ((ts.length : ℚ) - 1)
  else 0

/-- Pass condition of `test_slipstream` (dns_service.rs:357):
`successful ≥ 13 && avg < 1000 && max < 3000 && std_dev < 500`.  The last
conjunct is expressed on the variance: since the variance is non-negative,
`std_dev = √var < 500` iff `var < 500² = 250000` (proved as part of the
claim theorem). -/
def slipPass (ts : List ℚ) : Bool :=
  decide (13 ≤ ts.length) && decide (slipMean ts < 1000) &&
  decide (slipMax ts < 3000) && decide (slipVar ts < 250000)

/-- Result `(passes_all, score)` of `test_slipstream` on a run whose
successful-query latencies are `ts` (dns_service.rs:344-358): an empty list
returns early with `(false, 0)`; otherwise the score is 3 on pass and 0 on
fail. -/
def testSlipstream (ts : List ℚ) : Bool × ℕ :=
  if ts.isEmpty then (false, 0)
  else (slipPass ts, if slipPass ts then 3 else 0)

/-- Concrete 12-success run with mean 500 and sample deviation 100. -/
def slipFailEx : List ℚ :=
  [650, 650, 450, 250, 500, 500, 500, 500, 500, 500, 500, 500]

/-- Concrete 15-success run with mean 900, max 2000, sample deviation 400. -/
def slipPassEx : List ℚ :=
  [2000, 0, 600, 700, 1200, 900, 900, 900, 900, 900, 900, 900, 900, 900, 900]

/-! ## Connection orchestrator (`src-tauri/src/services/connection.rs`) -/

/-- `ConnectionStatus` (connection.rs:18-24). -/
inductive ConnStatus
  | disconnected
  | connecting
  | connected
  | disconnecting
  | error
deriving DecidableEq, Repr

/-- `ConnectionState` (connection.rs:29-37).  Ports are `Option Nat`. -/
structure ConnState where
  status : ConnStatus
  message : Option String
  resolvers : List String
  domain : Option String
  proxyPort : Option Nat
  socksPort : Option Nat
  systemProxyEnabled : Bool
deriving DecidableEq, Repr

/-- `ConnectionState::default` (connection.rs:40-50). -/
def connDefault : ConnState :=
  { status := .disconnected, message := none, resolvers := [], domain := none,
    proxyPort := none, socksPort := none, systemProxyEnabled := false }

/-- `ConnectionConfig` (connection.rs:375-392); the two unused `_primary_dns`
and `_secondary_dns` fields are omitted. -/
structure ConnConfig where
  resolvers : List String
  domain : String
  authoritative : Bool
  tunMode : Bool
  keepAliveInterval : Option Nat
  congestionControl : Option String
  customDnsEnabled : Bool

/-- Outcomes of the fallible collaborators during one run of
`ConnectionService::start`: the DNS resolution of the target domain, the
process-manager start, and the two proxy-listener starts. -/
structure StartEnv where
  dnsResolve : Except String String
  pmRes : Except String Unit
  httpRes : Except String Unit
  socksRes : Except String Unit

/-- The first state transition of `start` (connection.rs:148-154): status
`Connecting`; resolvers, domain and message are overwritten, the remaining
fields (in particular the ports) are left as they were. -/
def connectingState (cfg : ConnConfig) (s : ConnState) : ConnState :=
  { s with status := .connecting, resolvers := cfg.resolvers,
           domain := some cfg.domain, message := some "Connecting..." }

/-- `ConnectionService::fail_connection` (connection.rs:270-284): set status
`Error` and the message; nothing else — the ports keep their values. -/
def failState (s : ConnState) (msg : String) : ConnState :=
  { s with status := .error, message := some msg }

/-- The final state transition of a successful `start`
(connection.rs:252-259): status `Connected`, `proxy_port = Some(8080)`,
`socks_port = Some(5201)`, message "Connected", and
`system_proxy_enabled = config.tun_mode`. -/
def connectedState (cfg : ConnConfig) (s : ConnState) : ConnState :=
  { s with status := .connected, proxyPort := some 8080,
           socksPort := some 5201, message := some "Connected",
           systemProxyEnabled := cfg.tunMode }

/-- The argument list assembled by `start` (connection.rs:200-221). -/
def assembleArgs (cfg : ConnConfig) (targetDomain : String) : List String :=
  (cfg.resolvers.flatMap (fun r =>
    [if cfg.authoritative then "--authoritative" else "--resolver", r]))
  ++ ["--domain", targetDomain]
  ++ (match cfg.keepAliveInterval with
      | some itv => ["--keep-alive-interval", toString itv]
      | none => [])
  ++ (match cfg.congestionControl with
      | some cc => if cc ≠ "auto" then ["--congestion-control", cc] else []
      | none => [])

/-- The sequence of states `ConnectionService::start` moves through, in
order; every element is emitted as a `status-update` right after it is set
(connection.rs:144-268).  The last element is the state `start` leaves
behind. -/
def startStates (cfg : ConnConfig) (env : StartEnv) (s : ConnState) :
    List ConnState :=
  let s1 := connectingState cfg s
  let dnsOutcome : Except String String :=
    if cfg.customDnsEnabled ∧ cfg.resolvers ≠ [] then env.dnsResolve
    else .ok cfg.domain
  match dnsOutcome with
  | .error e => [s1, failState s1 ("DNS Resolve failed: " ++ e)]
  | .ok _targetDomain =>
    match env.pmRes with
    | .error e => [s1, failState s1 ("Process failed: " ++ e)]
    | .ok _ =>
      match env.httpRes with
      | .error e => [s1, failState s1 ("HTTP Proxy failed: " ++ e)]
      | .ok _ =>
        match env.socksRes with
        | .error e => [s1, failState s1 ("SOCKS Bridge failed: " ++ e)]
        | .ok _ => [s1, connectedState cfg s1]

/-- The state `start` ends in (the last element of `startStates`). -/
def startFinal (cfg : ConnConfig) (env : StartEnv) (s : ConnState) :
    ConnState :=
  let s1 := connectingState cfg s
  let dnsOutcome : Except String String :=
    if cfg.customDnsEnabled ∧ cfg.resolvers ≠ [] then env.dnsResolve
    else .ok cfg.domain
  match dnsOutcome with
  | .error e => failState s1 ("DNS Resolve failed: " ++ e)
  | .ok _targetDomain =>
    match env.pmRes with
    | .error e => failState s1 ("Process failed: " ++ e)
    | .ok _ =>
      match env.httpRes with
      | .error e => failState s1 ("HTTP Proxy failed: " ++ e)
      | .ok _ =>
        match env.socksRes with
        | .error e => failState s1 ("SOCKS Bridge failed: " ++ e)
        | .ok _ => connectedState cfg s1

/-- The sequence of states `ConnectionService::stop` moves through
(connection.rs:287-330): status `Disconnecting` with message (ports kept!),
then the full reset to the default state. -/
def stopStates (s : ConnState) : List ConnState :=
  [{ s with status := .disconnecting, message := some "Disconnecting..." },
   connDefault]

/-- Quiescent orchestrator states: the initial default state and every state
left behind by a completed `start` or `stop`.  (The IPC layer in
`commands/connection.rs` invokes `start`/`stop` without any guard on the
current status, so both operations can run from any quiescent state.) -/
inductive Quiescent : ConnState → Prop
  | init : Quiescent connDefault
  | start (cfg : ConnConfig) (env : StartEnv) {s : ConnState} :
      Quiescent s → Quiescent (startFinal cfg env s)
  | stop {s : ConnState} : Quiescent s → Quiescent connDefault

/-- Reachable (externally observable) orchestrator states: the initial state
and every state emitted as a `status-update` during some `start` or `stop`
issued from a quiescent state. -/
def Reachable (t : ConnState) : Prop :=
  t = connDefault ∨
  (∃ s cfg env, Quiescent s ∧ t ∈ startStates cfg env s) ∨
  (∃ s, Quiescent s ∧ t ∈ stopStates s)

/-- An all-successful environment for `start`. -/
def envOk : StartEnv :=
  { dnsResolve := .ok "", pmRes := .ok (), httpRes := .ok (),
    socksRes := .ok () }

/-- A convenient concrete configuration. -/
def cfgEx : ConnConfig :=
  { resolvers := ["1.1.1.1:53"], domain := "example.com",
    authoritative := false, tunMode := true, keepAliveInterval := none,
    congestionControl := none, customDnsEnabled := false }

/-! ## Theorems -/

/-- Claim C2, counterexample: a run in which the spawn succeeds, the child
exits within the 2-second wait, and no concurrent `stop` occurs still makes
`ProcessManager::start` return success, because `is_running` only checks that
the handle slot is occupied.  The claim says every such run returns the error
"Stream Gate client failed to start". -/
theorem pmStart_succeeds_despite_early_exit :
    pmStart { spawnOk := true, childExitedWithin2s := true,
              stopCalledDuringWait := false } = .ok () := rfl

/-- Claim C2, amended: after a successful spawn, `ProcessManager::start`
waits 2 seconds and returns success iff the child-handle slot is still
occupied — i.e. iff no concurrent `stop()` took the handle — regardless of
whether the child has exited, because `is_running` never polls the child's
exit status. -/
theorem pmStart_ok_iff_slot_held (r : PmRun) (h : r.spawnOk = true) :
    pmStart r = .ok () ↔ r.stopCalledDuringWait = false := by
  cases r with
  | mk spawnOk exited stopped =>
    simp only at h
    subst h
    cases stopped <;> simp [pmStart, pmIsRunning]

/-- Witness for `pmStart_ok_iff_slot_held` at a concrete run. -/
theorem pmStart_ok_iff_slot_held_witness :
    pmStart { spawnOk := true, childExitedWithin2s := false,
              stopCalledDuringWait := false } = .ok ()
      ↔ (false : Bool) = false :=
  pmStart_ok_iff_slot_held
    { spawnOk := true, childExitedWithin2s := false,
      stopCalledDuringWait := false } rfl

/-- Claim C8: each 1-second tick returns the saturating differences
`current − prev` for uplink and downlink and swaps `prev ← current`;
`fetch_add` never decreases a counter in the absence of `u64` overflow; and
the concrete scenario — a tick observing `up = 1_000_000, down = 0` followed
by a tick observing `up = 1_400_000, down = 200_000` — emits
`{up: 400_000, down: 200_000}`. -/
theorem trafficCounter_spec :
    (∀ t : TrafficCounter,
      getAndResetSpeed t =
        ((t.uplink - t.prevUplink, t.downlink - t.prevDownlink),
         { t with prevUplink := t.uplink, prevDownlink := t.downlink })) ∧
    (∀ (t : TrafficCounter) (bytes : Nat),
      t.uplink + bytes < 2 ^ 64 → t.uplink ≤ (addUplink t bytes).uplink) ∧
    (∀ (t : TrafficCounter) (bytes : Nat),
      t.downlink + bytes < 2 ^ 64 →
        t.downlink ≤ (addDownlink t bytes).downlink) ∧
    (∀ t : TrafficCounter,
      t.uplink = 1000000 → t.downlink = 0 →
      ∀ t' : TrafficCounter,
        t'.prevUplink = ((getAndResetSpeed t).2).prevUplink →
        t'.prevDownlink = ((getAndResetSpeed t).2).prevDownlink →
        t'.uplink = 1400000 → t'.downlink = 200000 →
        (getAndResetSpeed t').1 = (400000, 200000)) := by
  refine ⟨fun t => rfl, ?_, ?_, ?_⟩
  · intro t bytes h
    simp only [addUplink, u64Mod]
    rw [Nat.mod_eq_of_lt h]
    omega
  · intro t bytes h
    simp only [addDownlink, u64Mod]
    rw [Nat.mod_eq_of_lt h]
    omega
  · intro t hu hd t' hpu hpd hu' hd'
    simp only [getAndResetSpeed] at *
    rw [hu', hd', hpu, hpd, hu, hd]

/-- Witness for `trafficCounter_spec`: instantiate the hypothesis-bearing
conjuncts at concrete counters. -/
theorem trafficCounter_spec_witness :
    (⟨1000000, 0, 0, 0⟩ : TrafficCounter).uplink + 5 < 2 ^ 64 ∧
    (⟨1000000, 0, 0, 0⟩ : TrafficCounter).uplink ≤
      (addUplink ⟨1000000, 0, 0, 0⟩ 5).uplink ∧
    (getAndResetSpeed ⟨1400000, 200000, 1000000, 0⟩).1 = (400000, 200000) := by
  refine ⟨by norm_num, trafficCounter_spec.2.1 _ 5 (by norm_num), ?_⟩
  exact trafficCounter_spec.2.2.2 ⟨1000000, 0, 55, 66⟩ rfl rfl
    ⟨1400000, 200000, 1000000, 0⟩ rfl rfl rfl rfl

/-- Claim C1, counterexample: a fully successful `start` from the default
state ends with status `Connected` and `proxy_port = Some(8080)`, but with
`socks_port = Some(5201)` — not the claimed `Some(10809)` (the port the SOCKS
bridge actually listens on). -/
theorem start_socksPort_not_10809 :
    (startFinal cfgEx envOk connDefault).status = .connected ∧
    (startFinal cfgEx envOk connDefault).socksPort ≠ some 10809 := by
  constructor <;> decide

/-- Claim C1, amended: when `ConnectionService::start` completes successfully
(final status `Connected`), the resulting state — which is also the last
emitted `status-update` — has `proxy_port = Some(8080)`,
`socks_port = Some(5201)` (the upstream SOCKS5 port, not the 10809 bridge
port) and `system_proxy_enabled = config.tun_mode`. -/
theorem start_success_state (cfg : ConnConfig) (env : StartEnv)
    (s : ConnState) (h : (startFinal cfg env s).status = .connected) :
    (startFinal cfg env s).proxyPort = some 8080 ∧
    (startFinal cfg env s).socksPort = some 5201 ∧
    (startFinal cfg env s).systemProxyEnabled = cfg.tunMode ∧
    (startStates cfg env s).getLast? = some (startFinal cfg env s) := by
  have hlast : (startStates cfg env s).getLast? = some (startFinal cfg env s) := by
    unfold startFinal startStates
    cases hd : (if cfg.customDnsEnabled ∧ cfg.resolvers ≠ [] then
        env.dnsResolve else .ok cfg.domain) <;>
      cases hp : env.pmRes <;> cases hh : env.httpRes <;> cases hs : env.socksRes <;>
        simp [hd, hp, hh, hs]
  have key : (startFinal cfg env s).proxyPort = some 8080 ∧
      (startFinal cfg env s).socksPort = some 5201 ∧
      (startFinal cfg env s).systemProxyEnabled = cfg.tunMode := by
    unfold startFinal at h ⊢
    cases hd : (if cfg.customDnsEnabled ∧ cfg.resolvers ≠ [] then
        env.dnsResolve else .ok cfg.domain) <;>
      cases hp : env.pmRes <;> cases hh : env.httpRes <;> cases hs : env.socksRes <;>
        simp [hd, hp, hh, hs, failState, connectedState, connectingState] at h ⊢
  exact ⟨key.1, key.2.1, key.2.2, hlast⟩

/-- Witness for `start_success_state` at a concrete successful run. -/
theorem start_success_state_witness :
    (startFinal cfgEx envOk connDefault).status = .connected ∧
    ((startFinal cfgEx envOk connDefault).proxyPort = some 8080 ∧
     (startFinal cfgEx envOk connDefault).socksPort = some 5201 ∧
     (startFinal cfgEx envOk connDefault).systemProxyEnabled = cfgEx.tunMode ∧
     (startStates cfgEx envOk connDefault).getLast? =
       some (startFinal cfgEx envOk connDefault)) :=
  ⟨by decide, start_success_state cfgEx envOk connDefault (by decide)⟩

/-- The intermediate state `stop()` emits right after a successful
`start`: status `Disconnecting` with the ports still populated. -/
def c3BadState : ConnState :=
  { status := .disconnecting, message := some "Disconnecting...",
    resolvers := ["1.1.1.1:53"], domain := some "example.com",
    proxyPort := some 8080, socksPort := some 5201,
    systemProxyEnabled := true }

/-- Claim C3, counterexample: the invariant "ports are populated iff status =
Connected" fails on a reachable, emitted state — during `stop()` the state is
set to `Disconnecting` (and emitted) while `proxy_port`/`socks_port` still
hold their values from the preceding `Connected` state. -/
theorem ports_iff_connected_fails :
    Reachable c3BadState ∧ c3BadState.status ≠ .connected ∧
    c3BadState.proxyPort = some 8080 ∧ c3BadState.socksPort = some 5201 := by
  refine ⟨Or.inr (Or.inr ⟨startFinal cfgEx envOk connDefault,
    Quiescent.start cfgEx envOk Quiescent.init, ?_⟩), by decide, rfl, rfl⟩
  show c3BadState ∈ stopStates _
  decide

/-- Claim C3, amended: only the forward direction of the invariant holds — in
every reachable state, status `Connected` implies `proxy_port = Some(8080)`
and `socks_port = Some(5201)`.  The converse fails: the `Disconnecting` state
emitted by `stop()` and the `Error` state of a failed re-`start` can retain
stale ports, since neither `fail_connection` nor the `Connecting` transition
clears them. -/
theorem connected_implies_ports (t : ConnState) (hr : Reachable t)
    (hc : t.status = .connected) :
    t.proxyPort = some 8080 ∧ t.socksPort = some 5201 := by
  rcases hr with rfl | ⟨s, cfg, env, _, hmem⟩ | ⟨s, _, hmem⟩
  · cases hc
  · unfold startStates at hmem
    rcases hd : (if cfg.customDnsEnabled ∧ cfg.resolvers ≠ [] then
        env.dnsResolve else .ok cfg.domain) with e | d <;>
      rcases hp : env.pmRes with e' | u <;>
        rcases hh : env.httpRes with e'' | u' <;>
          rcases hs : env.socksRes with e''' | u'' <;>
            simp only [hd, hp, hh, hs, List.mem_cons, List.mem_singleton,
              List.not_mem_nil, or_false] at hmem
    all_goals rcases hmem with rfl | rfl
    all_goals first
      | exact ⟨rfl, rfl⟩
      | cases hc
  · simp only [stopStates, List.mem_cons, List.mem_singleton,
      List.not_mem_nil, or_false] at hmem
    rcases hmem with rfl | rfl
    · cases hc
    · cases hc

/-- Witness for `connected_implies_ports` at the concrete `Connected` state
reached by a successful start. -/
theorem connected_implies_ports_witness :
    Reachable (startFinal cfgEx envOk connDefault) ∧
    (startFinal cfgEx envOk connDefault).status = .connected ∧
    ((startFinal cfgEx envOk connDefault).proxyPort = some 8080 ∧
     (startFinal cfgEx envOk connDefault).socksPort = some 5201) := by
  have hreach : Reachable (startFinal cfgEx envOk connDefault) := by
    refine Or.inr (Or.inl ⟨connDefault, cfgEx, envOk, Quiescent.init, ?_⟩)
    show startFinal cfgEx envOk connDefault ∈ startStates cfgEx envOk connDefault
    decide
  exact ⟨hreach, by decide,
    connected_implies_ports _ hreach (by decide)⟩

/-- Claim C4 (code bug): every stderr line of the tunnel child is emitted as
a `stream-error` event (after `strip_unsupported` filtering), and a line
containing "Address already in use" fires the port-conflict warning — but no
`kill_ports([5201])` call is ever performed: evaluated at the failing input
"bind: Address already in use", the warning fires and the list of
`kill_ports` invocations is still empty, contrary to the claimed best-effort
port clearing. -/
theorem stderr_line_no_killPorts :
    (∀ line, (handleStderrLine line).emitted = stripUnsupported line ∧
      (handleStderrLine line).killPortsCalls = []) ∧
    (handleStderrLine (P "bind: Address already in use")).emitted =
      P "bind: Address already in use" ∧
    (handleStderrLine (P "bind: Address already in use")).warnedPortConflict
      = true ∧
    (handleStderrLine (P "bind: Address already in use")).killPortsCalls
      = [] := by
  exact ⟨fun line => ⟨rfl, rfl⟩, by decide, by decide, rfl⟩

/-- One scan step never decreases the generational `scan_id`. -/
theorem scanStep_id_le (st : ScanSys) (a : ScanAction) :
    st.scanId ≤ (scanStep st a).1.scanId := by
  cases a <;> simp only [scanStep]
  · split <;> simp
  · simp
  · simp
  · simp

/-- Every event emitted during a run carries an id at least the starting
`scan_id`: workers only emit when their carried id equals the current id,
which never decreases. -/
theorem scanRun_emission_ge (acts : List ScanAction) :
    ∀ (st : ScanSys) (e : Emission), e ∈ (scanRun st acts).2 →
      st.scanId ≤ e.carried := by
  induction acts with
  | nil => intro st e he; simp [scanRun] at he
  | cons a rest ih =>
    intro st e he
    simp only [scanRun, List.mem_append] at he
    rcases he with h1 | h2
    · cases a <;> simp only [scanStep] at h1
      · split at h1 <;> simp at h1
      · simp at h1
      · split at h1
        · next hc =>
          simp only [List.mem_cons, List.mem_singleton, List.not_mem_nil,
            or_false] at h1
          rcases h1 with rfl | rfl <;> simp [← hc]
        · simp at h1
      · split at h1
        · next hc =>
          simp only [List.mem_singleton] at h1
          subst h1; simp [← hc]
        · simp at h1
    · exact le_trans (scanStep_id_le st a) (ih _ e h2)

/-- Claim C5: once `stop_scan()` has executed from state `st` (incrementing
`scan_id`), no `dns-scan-result`, `dns-scan-progress` or `dns-scan-complete`
event carrying the stopped scan's id (`st.scanId`) is ever emitted by any
subsequent interleaving of steps: every emission site re-checks its carried
id against the current `scan_id` under the lock, and the current id stays
strictly above the stopped one. -/
theorem stop_scan_cancels (st : ScanSys) (acts : List ScanAction)
    (e : Emission) (h : e ∈ (scanRun (scanStep st .stopScan).1 acts).2) :
    e.carried ≠ st.scanId := by
  have hge := scanRun_emission_ge acts (scanStep st .stopScan).1 e h
  simp only [scanStep] at hge
  omega

/-- Witness for `stop_scan_cancels`: a concrete interleaving — stop scan 5
(making the current id 6), start a new scan (id 7), let its worker emit —
produces an emission, and the theorem yields that its carried id differs
from the stopped scan's id. -/
theorem stop_scan_cancels_witness :
    (⟨7, .result⟩ : Emission) ∈
      (scanRun (scanStep ⟨5, true⟩ .stopScan).1
        [.startScan, .emitGuarded 7, .finishScan 7]).2 ∧
    (⟨7, .result⟩ : Emission).carried ≠ (⟨5, true⟩ : ScanSys).scanId :=
  ⟨by decide, stop_scan_cancels ⟨5, true⟩ [.startScan, .emitGuarded 7, .finishScan 7]
    ⟨7, .result⟩ (by decide)⟩

/-- The sample variance is non-negative. -/
theorem slipVar_nonneg (ts : List ℚ) : 0 ≤ slipVar ts := by
  unfold slipVar
  split
  · next h =>
    apply div_nonneg
    · apply List.sum_nonneg
      intro x hx
      simp only [List.mem_map] at hx
      obtain ⟨t, _, rfl⟩ := hx
      positivity
    · have h' : (1 : ℚ) < (ts.length : ℚ) := by exact_mod_cast h
      linarith
  · exact le_refl 0

/-- Square-root bridge: for a non-negative rational variance,
`√var < 500` iff `var < 250000`. -/
theorem sqrt_lt_500_iff (q : ℚ) (_hq : 0 ≤ q) :
    Real.sqrt (q : ℝ) < 500 ↔ q < 250000 := by
  rw [Real.sqrt_lt' (by norm_num : (0 : ℝ) < 500)]
  constructor <;> intro h
  · have : (q : ℝ) < 250000 := by norm_num at h; exact h
    exact_mod_cast this
  · have : (q : ℝ) < 250000 := by exact_mod_cast h
    norm_num
    exact this

/-- Claim C7: with `n` the number of successful queries (of 15), `μ` the
mean latency, `max` the worst latency and `σ` the sample standard deviation
(`n − 1` denominator, `0` when `n ≤ 1`), `test_slipstream` passes with score
3 iff `n ≥ 13 ∧ μ < 1000 ∧ max < 3000 ∧ σ < 500`, and scores 0 on fail; in
particular every 12-success run fails, a concrete run with `n = 12, μ = 500,
σ = 100` fails, and a concrete run with `n = 15, μ = 900, max = 2000,
σ = 400` passes. -/
theorem slipstream_scoring :
    (∀ ts : List ℚ, ts ≠ [] → ts.length ≤ 15 →
      ((testSlipstream ts = (true, 3)) ↔
        (13 ≤ ts.length ∧ slipMean ts < 1000 ∧ slipMax ts < 3000 ∧
          Real.sqrt ((slipVar ts : ℚ) : ℝ) < 500)) ∧
      ((testSlipstream ts).1 = false → (testSlipstream ts).2 = 0)) ∧
    (∀ ts : List ℚ, ts.length = 12 →
      (testSlipstream ts).1 = false ∧ (testSlipstream ts).2 = 0) ∧
    (slipFailEx.length = 12 ∧ slipMean slipFailEx = 500 ∧
      Real.sqrt ((slipVar slipFailEx : ℚ) : ℝ) = 100 ∧
      testSlipstream slipFailEx = (false, 0)) ∧
    (slipPassEx.length = 15 ∧ slipMean slipPassEx = 900 ∧
      slipMax slipPassEx = 2000 ∧
      Real.sqrt ((slipVar slipPassEx : ℚ) : ℝ) = 400 ∧
      testSlipstream slipPassEx = (true, 3)) := by
  have hchar : ∀ ts : List ℚ, ts ≠ [] →
      ((testSlipstream ts = (true, 3)) ↔
        (13 ≤ ts.length ∧ slipMean ts < 1000 ∧ slipMax ts < 3000 ∧
          Real.sqrt ((slipVar ts : ℚ) : ℝ) < 500)) := by
    intro ts hne
    have hemp : ts.isEmpty = false := by
      cases ts with
      | nil => exact absurd rfl hne
      | cons a l => rfl
    rw [sqrt_lt_500_iff (slipVar ts) (slipVar_nonneg ts)]
    simp only [testSlipstream, hemp, Bool.false_eq_true, if_false]
    constructor
    · intro h
      have h1 : slipPass ts = true := congrArg Prod.fst h
      simpa [slipPass, Bool.and_eq_true, decide_eq_true_eq, and_assoc]
        using h1
    · intro h
      have h1 : slipPass ts = true := by
        simp [slipPass, Bool.and_eq_true, decide_eq_true_eq, and_assoc]
        exact h
      simp [h1]
  have hmF : slipMean slipFailEx = 500 := by
    norm_num [slipMean, slipFailEx, List.sum_cons, List.sum_nil]
  have hvF : slipVar slipFailEx = 10000 := by
    simp only [slipVar, hmF]
    norm_num [slipFailEx, List.map_cons, List.map_nil, List.sum_cons,
      List.sum_nil]
  have hmP : slipMean slipPassEx = 900 := by
    norm_num [slipMean, slipPassEx, List.sum_cons, List.sum_nil]
  have hvP : slipVar slipPassEx = 160000 := by
    simp only [slipVar, hmP]
    norm_num [slipPassEx, List.map_cons, List.map_nil, List.sum_cons,
      List.sum_nil]
  have hmaxP : slipMax slipPassEx = 2000 := by
    simp only [slipMax, slipPassEx, List.foldl, max_def]
    norm_num
  refine ⟨fun ts hne _ => ⟨hchar ts hne, ?_⟩, ?_, ?_, ?_⟩
  · intro hfail
    by_cases hemp : ts.isEmpty
    · simp [testSlipstream, hemp]
    · simp only [Bool.not_eq_true] at hemp
      simp only [testSlipstream, hemp, Bool.false_eq_true, if_false] at hfail ⊢
      simp [hfail]
  · intro ts hlen
    have hpass : slipPass ts = false := by
      simp [slipPass, hlen]
    have hemp : ts.isEmpty = false := by
      cases ts with
      | nil => simp at hlen
      | cons a l => rfl
    simp [testSlipstream, hemp, hpass]
  · refine ⟨by norm_num [slipFailEx], hmF, ?_, ?_⟩
    · rw [hvF, show ((10000 : ℚ) : ℝ) = 100 ^ 2 by norm_num,
        Real.sqrt_sq (by norm_num : (0 : ℝ) ≤ 100)]
    · have hpass : slipPass slipFailEx = false := by
        simp [slipPass, slipFailEx]
      simp [testSlipstream, hpass,
        show slipFailEx.isEmpty = false from rfl]
  · refine ⟨by norm_num [slipPassEx], hmP, hmaxP, ?_, ?_⟩
    · rw [hvP, show ((160000 : ℚ) : ℝ) = 400 ^ 2 by norm_num,
        Real.sqrt_sq (by norm_num : (0 : ℝ) ≤ 400)]
    · refine (hchar slipPassEx (by simp [slipPassEx])).mpr ?_
      refine ⟨by norm_num [slipPassEx], by rw [hmP]; norm_num,
        by rw [hmaxP]; norm_num, ?_⟩
      rw [sqrt_lt_500_iff (slipVar slipPassEx) (slipVar_nonneg _), hvP]
      norm_num

/-- Witness for `slipstream_scoring`: its characterization applied to the
concrete passing run. -/
theorem slipstream_scoring_witness :
    slipPassEx ≠ [] ∧ slipPassEx.length ≤ 15 ∧
    ((testSlipstream slipPassEx = (true, 3)) ↔
      (13 ≤ slipPassEx.length ∧ slipMean slipPassEx < 1000 ∧
        slipMax slipPassEx < 3000 ∧
        Real.sqrt ((slipVar slipPassEx : ℚ) : ℝ) < 500)) :=
  ⟨by decide, by decide,
    (slipstream_scoring.1 slipPassEx (by decide) (by decide)).1⟩

/-- A split is never the empty list of segments. -/
theorem splitOnByte_ne_nil (sep : Nat) (l : Str) : splitOnByte sep l ≠ [] := by
  induction l with
  | nil => simp [splitOnByte]
  | cons c rest ih =>
    simp only [splitOnByte]
    split
    · simp
    · cases h : splitOnByte sep rest with
      | nil => simp
      | cons hd tl => simp

/-- Joining the segments with the separator restores the original string. -/
theorem join_splitOnByte (sep : Nat) (l : Str) :
    joinWithByte sep (splitOnByte sep l) = l := by
  induction l with
  | nil => rfl
  | cons c rest ih =>
    simp only [splitOnByte]
    split
    · next hc =>
      subst hc
      cases hs : splitOnByte c rest with
      | nil => exact absurd hs (splitOnByte_ne_nil _ _)
      | cons hd tl =>
        rw [hs] at ih
        simp only [joinWithByte, List.nil_append]
        rw [ih]
    · cases hs : splitOnByte sep rest with
      | nil => exact absurd hs (splitOnByte_ne_nil _ _)
      | cons hd tl =>
        rw [hs] at ih
        cases tl with
        | nil =>
          simp only [joinWithByte] at ih ⊢
          rw [ih]
        | cons hd2 tl2 =>
          simp only [joinWithByte, List.cons_append] at ih ⊢
          rw [ih]

/-- Splitting a string of the form `l1 ++ sep :: l2` where `l1` avoids the
separator peels off `l1` as the first segment. -/
theorem splitOnByte_append (sep : Nat) (l1 l2 : Str) (h : sep ∉ l1) :
    splitOnByte sep (l1 ++ sep :: l2) = l1 :: splitOnByte sep l2 := by
  induction l1 with
  | nil => simp [splitOnByte]
  | cons c rest ih =>
    have hc : ¬(c = sep) := fun e => h (e ▸ List.mem_cons_self c rest)
    have h' : sep ∉ rest := fun hm => h (List.mem_cons_of_mem _ hm)
    simp only [List.cons_append, splitOnByte, hc, if_false, List.append_eq]
    rw [ih h']

/-- A separator-free string splits into a single segment. -/
theorem splitOnByte_of_not_mem (sep : Nat) (l : Str) (h : sep ∉ l) :
    splitOnByte sep l = [l] := by
  induction l with
  | nil => rfl
  | cons c rest ih =>
    have hc : ¬(c = sep) := fun e => h (e ▸ List.mem_cons_self c rest)
    have h' : sep ∉ rest := fun hm => h (List.mem_cons_of_mem _ hm)
    simp only [splitOnByte, hc, if_false, ih h']

/-- Every character of a string accepted by `parseUInt` is a digit or the
leading `+`. -/
theorem parseUInt_mem {bound : Nat} {s : Str} {v : Nat}
    (h : parseUInt bound s = some v) :
    ∀ c ∈ s, isDigitB c = true ∨ c = 43 := by
  intro c hc
  unfold parseUInt at h
  by_cases hh : s.head? = some 43
  · simp only [hh, if_true] at h
    split at h
    · next hcond =>
      cases s with
      | nil => simp at hh
      | cons a rest =>
        simp only [List.head?_cons, Option.some_inj] at hh
        subst hh
        rcases List.mem_cons.mp hc with rfl | hm
        · right; rfl
        · left
          exact List.all_eq_true.mp hcond.2 c hm
    · simp at h
  · simp only [hh, if_false] at h
    split at h
    · next hcond =>
      left
      exact List.all_eq_true.mp hcond.2 c hc
    · simp at h

/-- A string accepted by `parseUInt` contains neither `:` nor `.`. -/
theorem parseUInt_not_sep {bound : Nat} {s : Str} {v : Nat}
    (h : parseUInt bound s = some v) {sep : Nat}
    (hd : isDigitB sep = false) (hp : sep ≠ 43) : sep ∉ s := by
  intro hm
  rcases parseUInt_mem h sep hm with h1 | h1
  · rw [hd] at h1; cases h1
  · exact hp h1

/-- Every character of a valid IPv4 literal is a digit or a dot. -/
theorem isIpv4Str_mem {s : Str} (h : isIpv4Str s = true) :
    ∀ c ∈ s, isDigitB c = true ∨ c = 46 := by
  intro c hc
  unfold isIpv4Str at h
  split at h
  · next a b d e heq =>
    simp only [Bool.and_eq_true] at h
    have hs : joinWithByte 46 [a, b, d, e] = s := by
      rw [← heq]; exact join_splitOnByte 46 s
    simp only [joinWithByte] at hs
    rw [← hs] at hc
    have octet : ∀ p : Str, isIpv4Octet p = true → ∀ x ∈ p,
        isDigitB x = true := by
      intro p hp x hx
      unfold isIpv4Octet at hp
      simp only [Bool.and_eq_true] at hp
      exact List.all_eq_true.mp hp.1.1.2 x hx
    simp only [List.mem_append, List.mem_cons] at hc
    rcases hc with hc | rfl | hc | rfl | hc | rfl | hc
    · exact Or.inl (octet a h.1.1.1 c hc)
    · exact Or.inr rfl
    · exact Or.inl (octet b h.1.1.2 c hc)
    · exact Or.inr rfl
    · exact Or.inl (octet d h.1.2 c hc)
    · exact Or.inr rfl
    · exact Or.inl (octet e h.2 c hc)
  · cases h

/-- Claim C9: `validate_resolver` accepts exactly the strings built of an
IPv4 part — four dot-separated components each parsing as a `u8` — a colon,
and a port parsing as a positive `u16`; in particular "1.1.1.1:53" is
accepted while "1.1.1.1", "1.1.1.1:0", "1.1.1.1.1:53" and "256.0.0.1:53" are
rejected. -/
theorem validate_resolver_spec :
    (∀ s : Str, validate_resolver s = true ↔
      ∃ i1 i2 i3 i4 pstr p,
        s = (i1 ++ 46 :: (i2 ++ 46 :: (i3 ++ 46 :: i4))) ++ 58 :: pstr ∧
        (parseU8 i1).isSome = true ∧ (parseU8 i2).isSome = true ∧
        (parseU8 i3).isSome = true ∧ (parseU8 i4).isSome = true ∧
        parseU16 pstr = some p ∧ 0 < p) ∧
    validate_resolver (S "1.1.1.1:53") = true ∧
    validate_resolver (S "1.1.1.1") = false ∧
    validate_resolver (S "1.1.1.1:0") = false ∧
    validate_resolver (S "1.1.1.1.1:53") = false ∧
    validate_resolver (S "256.0.0.1:53") = false := by
  refine ⟨?_, by decide, by decide, by decide, by decide, by decide⟩
  intro s
  constructor
  · intro h
    unfold validate_resolver at h
    rcases heq : splitOnByte 58 s with
      _ | ⟨ipStr, _ | ⟨portStr, _ | ⟨x, t⟩⟩⟩ <;> rw [heq] at h
    case nil => simp at h
    case cons.nil => simp at h
    case cons.cons.cons => simp at h
    case cons.cons.nil =>
      by_cases hlen4 : (splitOnByte 46 ipStr).length = 4
      case neg => simp [hlen4] at h
      case pos =>
        cases hall : ((splitOnByte 46 ipStr).all fun p => (parseU8 p).isSome)
        case false => simp [hlen4, hall] at h
        case true =>
          rcases hp : parseU16 portStr with _ | port
          case none => simp [hlen4, hall, hp] at h
          case some =>
            simp only [hlen4, hall, hp, if_true, eq_self_iff_true] at h
            have hpos : 0 < port := by simpa using h
            rcases hq : splitOnByte 46 ipStr with
              _ | ⟨i1, _ | ⟨i2, _ | ⟨i3, _ | ⟨i4, _ | ⟨i5, t2⟩⟩⟩⟩⟩ <;>
              rw [hq] at hlen4 <;> simp at hlen4
            have hs : s = ipStr ++ 58 :: portStr := by
              have hj := join_splitOnByte 58 s
              rw [heq] at hj
              simpa [joinWithByte] using hj.symm
            have hip : ipStr = i1 ++ 46 :: (i2 ++ 46 :: (i3 ++ 46 :: i4)) := by
              have hj := join_splitOnByte 46 ipStr
              rw [hq] at hj
              simpa [joinWithByte] using hj.symm
            rw [hq] at hall
            simp only [List.all_cons, List.all_nil, Bool.and_eq_true,
              and_true] at hall
            refine ⟨i1, i2, i3, i4, portStr, port, ?_, hall.1, hall.2.1,
              hall.2.2.1, hall.2.2.2, hp, hpos⟩
            rw [hs, hip]
  · rintro ⟨i1, i2, i3, i4, pstr, p, rfl, h1, h2, h3, h4, hp, hpos⟩
    obtain ⟨v1, hv1⟩ := Option.isSome_iff_exists.mp h1
    obtain ⟨v2, hv2⟩ := Option.isSome_iff_exists.mp h2
    obtain ⟨v3, hv3⟩ := Option.isSome_iff_exists.mp h3
    obtain ⟨v4, hv4⟩ := Option.isSome_iff_exists.mp h4
    have n58 : ∀ {q : Str} {w : Nat}, parseUInt 255 q = some w → 58 ∉ q :=
      fun hq => parseUInt_not_sep hq (by decide) (by decide)
    have n46 : ∀ {q : Str} {w : Nat}, parseUInt 255 q = some w → 46 ∉ q :=
      fun hq => parseUInt_not_sep hq (by decide) (by decide)
    have hip58 : (58 : Nat) ∉ i1 ++ 46 :: (i2 ++ 46 :: (i3 ++ 46 :: i4)) := by
      intro hm
      rcases List.mem_append.mp hm with hx | hm2
      · exact n58 hv1 hx
      rcases List.mem_cons.mp hm2 with hx | hm3
      · exact absurd hx (by decide)
      rcases List.mem_append.mp hm3 with hx | hm4
      · exact n58 hv2 hx
      rcases List.mem_cons.mp hm4 with hx | hm5
      · exact absurd hx (by decide)
      rcases List.mem_append.mp hm5 with hx | hm6
      · exact n58 hv3 hx
      rcases List.mem_cons.mp hm6 with hx | hx
      · exact absurd hx (by decide)
      · exact n58 hv4 hx
    have hsplit : splitOnByte 58
        ((i1 ++ 46 :: (i2 ++ 46 :: (i3 ++ 46 :: i4))) ++ 58 :: pstr) =
        [i1 ++ 46 :: (i2 ++ 46 :: (i3 ++ 46 :: i4)), pstr] := by
      rw [splitOnByte_append 58 _ _ hip58,
        splitOnByte_of_not_mem 58 pstr
          (parseUInt_not_sep hp (by decide) (by decide))]
    have hipsplit : splitOnByte 46
        (i1 ++ 46 :: (i2 ++ 46 :: (i3 ++ 46 :: i4))) = [i1, i2, i3, i4] := by
      rw [splitOnByte_append 46 _ _ (n46 hv1),
        splitOnByte_append 46 _ _ (n46 hv2),
        splitOnByte_append 46 _ _ (n46 hv3),
        splitOnByte_of_not_mem 46 i4 (n46 hv4)]
    unfold validate_resolver
    rw [hsplit]
    simp [hipsplit, h1, h2, h3, h4, hp, hpos]

/-- Claim C10, counterexample: on input "8.8.8.8:1:x" — whose address part
parses as an IP and whose port text "1:x" does not parse as a `u16` —
`parse_server` returns the port of the first colon segment, `Some((ip, 1))`,
not the claimed `Some((ip, 53))`. -/
theorem parse_server_port_not_53 :
    parse_server (S "8.8.8.8:1:x") = some (S "8.8.8.8", 1) ∧
    parseU16 (S "1:x") = none ∧
    isIpAddrStr (S "8.8.8.8") = true ∧
    parse_server (S "8.8.8.8:1:x") ≠ some (S "8.8.8.8", 53) := by
  refine ⟨by decide, by decide, by decide, by decide⟩

/-- Claim C10, amended: for every input `<ip>:<text>` where `<ip>` is an
IPv4 literal and `<text>` contains no further colon and does not parse as a
`u16` (e.g. "8.8.8.8:abc" or "8.8.8.8:99999"), `parse_server` does not
reject the input but silently substitutes the default port:
`Some((<ip>, 53))`.  (When `<text>` itself contains a colon, the port is
taken from the segment before that colon instead.) -/
theorem parse_server_default_port (ip txt : Str)
    (hip : isIpv4Str ip = true) (hcol : (58 : Nat) ∉ txt)
    (hport : parseU16 txt = none) :
    parse_server (ip ++ 58 :: txt) = some (ip, 53) := by
  have hip58 : (58 : Nat) ∉ ip := by
    intro hm
    rcases isIpv4Str_mem hip 58 hm with h | h
    · cases h
    · cases h
  unfold parse_server
  rw [splitOnByte_append 58 ip txt hip58, splitOnByte_of_not_mem 58 txt hcol]
  simp [hport, isIpAddrStr, hip]

/-- Witness for `parse_server_default_port` at the two example inputs. -/
theorem parse_server_default_port_witness :
    (isIpv4Str (S "8.8.8.8") = true ∧ (58 : Nat) ∉ S "abc" ∧
      parseU16 (S "abc") = none ∧
      parse_server (S "8.8.8.8" ++ 58 :: S "abc") = some (S "8.8.8.8", 53)) ∧
    (parseU16 (S "99999") = none ∧
      parse_server (S "8.8.8.8" ++ 58 :: S "99999") =
        some (S "8.8.8.8", 53)) :=
  ⟨⟨by decide, by decide, by decide,
      parse_server_default_port (S "8.8.8.8") (S "abc") (by decide)
        (by decide) (by decide)⟩,
   ⟨by decide,
      parse_server_default_port (S "8.8.8.8") (S "99999") (by decide)
        (by decide) (by decide)⟩⟩

/-- Decoding inverts the alphabet map on sextets. -/
theorem b64decChar_encChar : ∀ n : Nat, n < 64 →
    b64decChar (b64encChar n) = some n := by decide

/-- Alphabet characters are never the padding character. -/
theorem b64encChar_ne_61 : ∀ n : Nat, n < 64 → b64encChar n ≠ 61 := by decide

/-- Alphabet characters lie between `+` (43) and `z` (122). -/
theorem b64encChar_range : ∀ n : Nat,
    43 ≤ b64encChar n ∧ b64encChar n ≤ 122 := by
  intro n
  unfold b64encChar
  repeat' split
  all_goals omega

/-- Every character of a Base64 encoding lies between 43 and 122; in
particular encodings contain no newline, no whitespace, and no `ssgate`
framing characters below `+`. -/
theorem b64encode_mem_range (l : List Nat) :
    ∀ c ∈ b64encode l, 43 ≤ c ∧ c ≤ 122 := by
  induction l using b64encode.induct with
  | case1 a b c rest ih =>
    intro x hx
    simp only [b64encode, List.mem_cons] at hx
    rcases hx with rfl | rfl | rfl | rfl | hx
    · exact b64encChar_range _
    · exact b64encChar_range _
    · exact b64encChar_range _
    · exact b64encChar_range _
    · exact ih x hx
  | case2 a b =>
    intro x hx
    simp only [b64encode, List.mem_cons, List.not_mem_nil, or_false] at hx
    rcases hx with rfl | rfl | rfl | rfl
    · exact b64encChar_range _
    · exact b64encChar_range _
    · exact b64encChar_range _
    · omega
  | case3 a =>
    intro x hx
    simp only [b64encode, List.mem_cons, List.not_mem_nil, or_false] at hx
    rcases hx with rfl | rfl | rfl | rfl
    · exact b64encChar_range _
    · exact b64encChar_range _
    · omega
    · omega
  | case4 =>
    intro x hx
    simp [b64encode] at hx

/-- Strict decoding inverts encoding on byte strings. -/
theorem b64_roundtrip (l : List Nat) (hl : ∀ b ∈ l, b < 256) :
    b64decode (b64encode l) = some l := by
  induction l using b64encode.induct with
  | case1 a b c rest ih =>
    have ha : a < 256 := hl a (by simp)
    have hb : b < 256 := hl b (by simp)
    have hc : c < 256 := hl c (by simp)
    have ih' := ih (fun x hx => hl x (by simp [hx]))
    have e0 := b64decChar_encChar (a / 4) (by omega)
    have e1 := b64decChar_encChar ((a % 4) * 16 + b / 16) (by omega)
    have e2 := b64decChar_encChar ((b % 16) * 4 + c / 64) (by omega)
    have e3 := b64decChar_encChar (c % 64) (by omega)
    have ne2 := b64encChar_ne_61 ((b % 16) * 4 + c / 64) (by omega)
    have ne3 := b64encChar_ne_61 (c % 64) (by omega)
    simp only [b64encode, b64decode, e0, e1, e2, e3, ne2, ne3,
      false_and, and_false, if_false, ih', Option.map_some]
    refine congrArg some ?_
    have d1 : (a % 4) * 16 + b / 16 < 64 := by omega
    refine List.cons_eq_cons.mpr ⟨by omega, List.cons_eq_cons.mpr ⟨by omega,
      List.cons_eq_cons.mpr ⟨by omega, rfl⟩⟩⟩
  | case2 a b =>
    have ha : a < 256 := hl a (by simp)
    have hb : b < 256 := hl b (by simp)
    have e0 := b64decChar_encChar (a / 4) (by omega)
    have e1 := b64decChar_encChar ((a % 4) * 16 + b / 16) (by omega)
    have e2 := b64decChar_encChar ((b % 16) * 4) (by omega)
    have ne2 := b64encChar_ne_61 ((b % 16) * 4) (by omega)
    simp only [b64encode, b64decode, e0, e1, e2, ne2, false_and, and_false,
      if_false, and_self, if_true, and_true]
    rw [if_pos (by omega)]
    refine congrArg some ?_
    refine List.cons_eq_cons.mpr ⟨by omega, List.cons_eq_cons.mpr ⟨by omega,
      rfl⟩⟩
  | case3 a =>
    have ha : a < 256 := hl a (by simp)
    have e0 := b64decChar_encChar (a / 4) (by omega)
    have e1 := b64decChar_encChar ((a % 4) * 16) (by omega)
    simp only [b64encode, b64decode, e0, e1, and_self, if_true]
    rw [if_pos (by omega)]
    refine congrArg some ?_
    refine List.cons_eq_cons.mpr ⟨by omega, rfl⟩
  | case4 => rfl

/-- Consuming a literal from itself plus a remainder yields the remainder. -/
theorem expectLit_append (p r : Str) : expectLit p (p ++ r) = some r := by
  induction p with
  | nil => rfl
  | cons c cs ih => simp [expectLit, ih]

/-- A string starts with any of its own prefixes. -/
theorem listStartsWith_append (p r : Str) :
    listStartsWith p (p ++ r) = true := by
  induction p with
  | nil => rfl
  | cons c cs ih => simp [listStartsWith, ih]

/-- Hex digits round-trip. -/
theorem hexVal_hexDigit : ∀ n : Nat, n < 16 →
    hexVal (hexDigit n) = some n := by decide

/-- The JSON string lexer undoes serde_json's escaping: parsing the escaped
content followed by the closing quote and any remainder returns the original
bytes and the remainder. -/
theorem parseJsonStrAux_escape (s : Str) (hs : Ok256 s) :
    ∀ r : Str, parseJsonStrAux (jsonEscape s ++ (34 :: r)) = some (s, r) := by
  induction s with
  | nil =>
    intro r
    rw [show jsonEscape [] ++ (34 :: r) = 34 :: r by simp [jsonEscape],
      parseJsonStrAux.eq_def]
    simp
  | cons c s' ih =>
    intro r
    have hc : c < 256 := hs c (by simp)
    have ih' := ih (fun b hb => hs b (by simp [hb])) r
    show parseJsonStrAux ((escapeByte c ++ jsonEscape s') ++ (34 :: r)) = _
    rw [List.append_assoc]
    by_cases h34 : c = 34
    · subst h34
      rw [show escapeByte 34 = [92, 34] from rfl, List.cons_append,
        List.cons_append, List.nil_append, parseJsonStrAux.eq_def]
      simp [ih']
    · by_cases h92 : c = 92
      · subst h92
        rw [show escapeByte 92 = [92, 92] from rfl, List.cons_append,
          List.cons_append, List.nil_append, parseJsonStrAux.eq_def]
        simp [ih']
      · by_cases h8 : c = 8
        · subst h8
          rw [show escapeByte 8 = [92, 98] from rfl, List.cons_append,
            List.cons_append, List.nil_append, parseJsonStrAux.eq_def]
          simp [ih']
        · by_cases h9 : c = 9
          · subst h9
            rw [show escapeByte 9 = [92, 116] from rfl, List.cons_append,
              List.cons_append, List.nil_append, parseJsonStrAux.eq_def]
            simp [ih']
          · by_cases h10 : c = 10
            · subst h10
              rw [show escapeByte 10 = [92, 110] from rfl, List.cons_append,
                List.cons_append, List.nil_append, parseJsonStrAux.eq_def]
              simp [ih']
            · by_cases h12 : c = 12
              · subst h12
                rw [show escapeByte 12 = [92, 102] from rfl,
                  List.cons_append, List.cons_append, List.nil_append,
                  parseJsonStrAux.eq_def]
                simp [ih']
              · by_cases h13 : c = 13
                · subst h13
                  rw [show escapeByte 13 = [92, 114] from rfl,
                    List.cons_append, List.cons_append, List.nil_append,
                    parseJsonStrAux.eq_def]
                  simp [ih']
                · by_cases hlt : c < 32
                  · have hv1 : hexVal (hexDigit (c / 16)) = some (c / 16) :=
                      hexVal_hexDigit _ (by omega)
                    have hv2 : hexVal (hexDigit (c % 16)) = some (c % 16) :=
                      hexVal_hexDigit _ (by omega)
                    have h48 : hexVal 48 = some 0 := by decide
                    rw [show escapeByte c =
                        [92, 117, 48, 48, hexDigit (c / 16),
                         hexDigit (c % 16)] by
                      simp [escapeByte, h34, h92, h8, h9, h10, h12, h13,
                        hlt]]
                    simp only [List.cons_append, List.nil_append]
                    rw [parseJsonStrAux.eq_def]
                    simp [h48, hv1, hv2, ih']
                    omega
                  · rw [show escapeByte c = [c] by
                        simp [escapeByte, h34, h92, h8, h9, h10, h12, h13,
                          hlt],
                      List.cons_append, List.nil_append,
                      parseJsonStrAux.eq_def]
                    simp [h34, h92, ih']

/-- JSON string literals round-trip through serialize/parse. -/
theorem parseJsonStr_round (s : Str) (hs : Ok256 s) (r : Str) :
    parseJsonStr (jsonStr s ++ r) = some (s, r) := by
  show parseJsonStr ((34 :: (jsonEscape s ++ [34])) ++ r) = _
  simp only [List.cons_append, List.append_assoc, List.singleton_append]
  show parseJsonStrAux (jsonEscape s ++ (34 :: r)) = _
  exact parseJsonStrAux_escape s hs r

/-- Unfolding lemma for `expectLit` on two cons cells. -/
theorem expectLit_cons (p c : Nat) (ps cs : Str) :
    expectLit (p :: ps) (c :: cs) =
      if p = c then expectLit ps cs else none := rfl

/-- Unfolding lemma for `expectLit` on the empty literal. -/
theorem expectLit_nil (l : Str) : expectLit [] l = some l := rfl

/-- The JSON payload emitted by `export_configs` parses back to exactly the
original fields: remark and domain present verbatim, country and socks
present iff they were serialized. -/
theorem parsePayload_payloadJson (c : ConfigItemM)
    (hr : Ok256 c.remark) (hd : Ok256 c.domain)
    (hcoOk : ∀ co, c.country = some co → Ok256 co)
    (hsoOk : ∀ sa, c.socks = some sa →
      Ok256 sa.username ∧ Ok256 sa.password) :
    parsePayload (payloadJson c) =
      some ⟨some c.remark, some c.domain, c.country, c.socks⟩ := by
  obtain ⟨r, d, co, so⟩ := c
  simp only at hr hd hcoOk hsoOk
  have e1 : S "\x7b\"remark\":" =
      [123, 34, 114, 101, 109, 97, 114, 107, 34, 58] := by decide
  have e2 : S ",\"domain\":" =
      [44, 34, 100, 111, 109, 97, 105, 110, 34, 58] := by decide
  have e3 : S ",\"country\":" =
      [44, 34, 99, 111, 117, 110, 116, 114, 121, 34, 58] := by decide
  have e4 : S ",\"socks\":" =
      [44, 34, 115, 111, 99, 107, 115, 34, 58] := by decide
  have e4b : S ",\"socks\":\x7b\"username\":" =
      [44, 34, 115, 111, 99, 107, 115, 34, 58, 123, 34, 117, 115, 101, 114,
       110, 97, 109, 101, 34, 58] := by decide
  have e5 : S "\x7b\"username\":" =
      [123, 34, 117, 115, 101, 114, 110, 97, 109, 101, 34, 58] := by decide
  have e6 : S ",\"password\":" =
      [44, 34, 112, 97, 115, 115, 119, 111, 114, 100, 34, 58] := by decide
  have e7 : S "\x7d" = [125] := by decide
  have hPr : ∀ t, parseJsonStr (jsonStr r ++ t) = some (r, t) :=
    parseJsonStr_round r hr
  have hPd : ∀ t, parseJsonStr (jsonStr d ++ t) = some (d, t) :=
    parseJsonStr_round d hd
  cases co with
  | none =>
    cases so with
    | none =>
      simp [payloadJson, parsePayload, e1, e2, e3, e4, e7,
        List.append_assoc, expectLit_cons, expectLit_nil, hPr, hPd]
    | some sa =>
      obtain ⟨hu, hpw⟩ := hsoOk sa rfl
      have hPu : ∀ t, parseJsonStr (jsonStr sa.username ++ t) =
          some (sa.username, t) := parseJsonStr_round sa.username hu
      have hPp : ∀ t, parseJsonStr (jsonStr sa.password ++ t) =
          some (sa.password, t) := parseJsonStr_round sa.password hpw
      simp [payloadJson, parsePayload, parseSocksObj, e1, e2, e3, e4, e4b,
        e5, e6, e7, List.append_assoc, expectLit_cons, expectLit_nil,
        hPr, hPd, hPu, hPp]
  | some cov =>
    have hcov : Ok256 cov := hcoOk cov rfl
    have hPc : ∀ t, parseJsonStr (jsonStr cov ++ t) = some (cov, t) :=
      parseJsonStr_round cov hcov
    cases so with
    | none =>
      simp [payloadJson, parsePayload, e1, e2, e3, e4, e7,
        List.append_assoc, expectLit_cons, expectLit_nil, hPr, hPd, hPc]
    | some sa =>
      obtain ⟨hu, hpw⟩ := hsoOk sa rfl
      have hPu : ∀ t, parseJsonStr (jsonStr sa.username ++ t) =
          some (sa.username, t) := parseJsonStr_round sa.username hu
      have hPp : ∀ t, parseJsonStr (jsonStr sa.password ++ t) =
          some (sa.password, t) := parseJsonStr_round sa.password hpw
      simp [payloadJson, parsePayload, parseSocksObj, e1, e2, e3, e4, e4b,
        e5, e6, e7, List.append_assoc, expectLit_cons, expectLit_nil,
        hPr, hPd, hPc, hPu, hPp]

/-- Concatenation preserves byte bounds. -/
theorem Ok256_append {a b : Str} (ha : Ok256 a) (hb : Ok256 b) :
    Ok256 (a ++ b) := by
  intro x hx
  rcases List.mem_append.mp hx with h | h
  · exact ha x h
  · exact hb x h

/-- UTF-8 encodings of valid scalar values are bytes. -/
theorem utf8Bytes_ok (c : Nat) (hc : c < 1114112) :
    ∀ b ∈ utf8Bytes c, b < 256 := by
  intro b hb
  unfold utf8Bytes at hb
  split at hb
  · simp at hb; omega
  · split at hb
    · simp at hb; rcases hb with rfl | rfl <;> omega
    · split at hb
      · simp at hb; rcases hb with rfl | rfl | rfl <;> omega
      · simp at hb; rcases hb with rfl | rfl | rfl | rfl <;> omega

/-- Byte strings built from Lean string literals are bounded. -/
theorem S_ok (s : String) : Ok256 (S s) := by
  intro b hb
  unfold S at hb
  simp only [List.mem_flatMap] at hb
  obtain ⟨c, _, hc⟩ := hb
  refine utf8Bytes_ok c.toNat ?_ b hc
  have hv := c.valid
  rcases hv with h | ⟨h1, h2⟩
  · calc c.toNat = c.val.toNat := rfl
    _ < 0xd800 := h
    _ < 1114112 := by norm_num
  · exact h2

/-- Escaped bytes are bytes. -/
theorem escapeByte_ok (c : Nat) (hc : c < 256) :
    ∀ b ∈ escapeByte c, b < 256 := by
  intro b hb
  unfold escapeByte at hb
  have hd1 : hexDigit (c / 16) < 256 := by unfold hexDigit; split <;> omega
  have hd2 : hexDigit (c % 16) < 256 := by unfold hexDigit; split <;> omega
  repeat' split at hb
  all_goals simp at hb
  all_goals omega

/-- JSON-escaping preserves byte bounds. -/
theorem jsonEscape_ok {s : Str} (hs : Ok256 s) : Ok256 (jsonEscape s) := by
  intro b hb
  unfold jsonEscape at hb
  simp only [List.mem_flatMap] at hb
  obtain ⟨c, hcs, hc⟩ := hb
  exact escapeByte_ok c (hs c hcs) b hc

/-- JSON string literals are byte strings. -/
theorem jsonStr_ok {s : Str} (hs : Ok256 s) : Ok256 (jsonStr s) := by
  intro b hb
  unfold jsonStr at hb
  rcases List.mem_cons.mp hb with rfl | hb
  · omega
  · rcases List.mem_append.mp hb with h | h
    · exact jsonEscape_ok hs b h
    · simp at h; omega

/-- The serialized payload of a well-formed configuration is a byte
string. -/
theorem payloadJson_ok (c : ConfigItemM) (hr : Ok256 c.remark)
    (hd : Ok256 c.domain) (hcoOk : ∀ co, c.country = some co → Ok256 co)
    (hsoOk : ∀ sa, c.socks = some sa →
      Ok256 sa.username ∧ Ok256 sa.password) :
    Ok256 (payloadJson c) := by
  obtain ⟨r, d, co, so⟩ := c
  simp only at hr hd hcoOk hsoOk
  intro b hb
  unfold payloadJson at hb
  cases co with
  | none =>
    cases so with
    | none =>
      simp only [List.append_assoc, List.mem_append, List.nil_append,
        List.not_mem_nil, or_false, false_or] at hb
      rcases hb with h | h | h | h | h
      · exact S_ok _ b h
      · exact jsonStr_ok hr b h
      · exact S_ok _ b h
      · exact jsonStr_ok hd b h
      · exact S_ok _ b h
    | some sa =>
      obtain ⟨hu, hpw⟩ := hsoOk sa rfl
      simp only [List.append_assoc, List.mem_append, List.nil_append,
        List.not_mem_nil, or_false, false_or] at hb
      rcases hb with h | h | h | h | h | h | h | h | h | h
      · exact S_ok _ b h
      · exact jsonStr_ok hr b h
      · exact S_ok _ b h
      · exact jsonStr_ok hd b h
      · exact S_ok _ b h
      · exact jsonStr_ok hu b h
      · exact S_ok _ b h
      · exact jsonStr_ok hpw b h
      · exact S_ok _ b h
      · exact S_ok _ b h
  | some cov =>
    have hcov : Ok256 cov := hcoOk cov rfl
    cases so with
    | none =>
      simp only [List.append_assoc, List.mem_append, List.nil_append,
        List.not_mem_nil, or_false, false_or] at hb
      rcases hb with h | h | h | h | h | h | h
      · exact S_ok _ b h
      · exact jsonStr_ok hr b h
      · exact S_ok _ b h
      · exact jsonStr_ok hd b h
      · exact S_ok _ b h
      · exact jsonStr_ok hcov b h
      · exact S_ok _ b h
    | some sa =>
      obtain ⟨hu, hpw⟩ := hsoOk sa rfl
      simp only [List.append_assoc, List.mem_append, List.nil_append,
        List.not_mem_nil, or_false, false_or] at hb
      rcases hb with h | h | h | h | h | h | h | h | h | h | h | h
      · exact S_ok _ b h
      · exact jsonStr_ok hr b h
      · exact S_ok _ b h
      · exact jsonStr_ok hd b h
      · exact S_ok _ b h
      · exact jsonStr_ok hcov b h
      · exact S_ok _ b h
      · exact jsonStr_ok hu b h
      · exact S_ok _ b h
      · exact jsonStr_ok hpw b h
      · exact S_ok _ b h
      · exact S_ok _ b h

/-- Unfolding lemma for `splitFirst2`. -/
theorem splitFirst2_cons (c : Nat) (rest : Str) :
    splitFirst2 (c :: rest) =
      if c = 47 ∧ rest.head? = some 47 then some ([], rest.tail)
      else (splitFirst2 rest).map (fun p => (c :: p.1, p.2)) := rfl

/-- Unfolding lemma for `containsSub`. -/
theorem containsSub_cons (pat : List Nat) (c : Nat) (rest : List Nat) :
    containsSub pat (c :: rest) =
      (listStartsWith pat (c :: rest) || containsSub pat rest) := rfl

/-- Splitting at the first `//`: a prefix that contains no `//` and does
not end in `/` is peeled off unchanged. -/
theorem splitFirst2_at_sep (p s : Str)
    (h1 : containsSub [47, 47] p = false) (h2 : p.getLast? ≠ some 47) :
    splitFirst2 (p ++ 47 :: 47 :: s) = some (p, s) := by
  induction p with
  | nil => simp [splitFirst2_cons]
  | cons a p' ih =>
    rw [containsSub_cons, Bool.or_eq_false_iff] at h1
    obtain ⟨hsw, h1'⟩ := h1
    rw [List.cons_append, splitFirst2_cons]
    by_cases ha : a = 47
    · subst ha
      simp only [listStartsWith, Bool.and_eq_false_iff] at hsw
      rcases hsw with h | h
      · simp at h
      · cases p' with
        | nil => exact absurd rfl h2
        | cons b p'' =>
          have hb : ¬(b = 47) := by
            intro e
            subst e
            simp [listStartsWith] at h
          rw [if_neg (by
            simp only [List.cons_append, List.head?_cons]
            rintro ⟨-, hb47⟩
            exact hb (by simpa using hb47))]
          rw [ih h1' (by simpa using h2)]
          rfl
    · rw [if_neg (by intro hcond; exact ha hcond.1)]
      have h2' : p'.getLast? ≠ some 47 := by
        cases p' with
        | nil => simp
        | cons b p'' => simpa using h2
      rw [ih h1' h2']
      rfl

/-- Unfolding lemma for `trimLeft`. -/
theorem trimLeft_cons (c : Nat) (rest : Str) :
    trimLeft (c :: rest) =
      if wsByte c then trimLeft rest else c :: rest := rfl

/-- `trimLeft` keeps a string whose head is not whitespace. -/
theorem trimLeft_eq_self {l : Str}
    (h : ∀ c, l.head? = some c → wsByte c = false) : trimLeft l = l := by
  cases l with
  | nil => rfl
  | cons c rest => rw [trimLeft_cons, if_neg (by simp [h c rfl])]

/-- `rustTrim` keeps a string with non-whitespace ends. -/
theorem rustTrim_eq_self {l : Str}
    (hh : ∀ c, l.head? = some c → wsByte c = false)
    (hl : ∀ c, l.getLast? = some c → wsByte c = false) : rustTrim l = l := by
  unfold rustTrim
  rw [trimLeft_eq_self hh, trimLeft_eq_self (by
    intro c hc
    rw [List.head?_reverse] at hc
    exact hl c hc), List.reverse_reverse]

/-- `b64encode` maps non-empty inputs to non-empty outputs. -/
theorem b64encode_ne_nil {l : List Nat} (h : l ≠ []) : b64encode l ≠ [] := by
  rcases l with _ | ⟨a, _ | ⟨b, _ | ⟨c, rest⟩⟩⟩
  · exact absurd rfl h
  · simp [b64encode]
  · simp [b64encode]
  · simp [b64encode]

/-- The serialized payload is never empty. -/
theorem payloadJson_ne_nil (c : ConfigItemM) : payloadJson c ≠ [] := by
  intro h
  have hlen := congrArg List.length h
  rw [payloadJson] at hlen
  simp only [List.length_append, List.length_nil] at hlen
  have h10 : (S "\x7b\"remark\":").length = 10 := by decide
  omega

/-- An exported line in separator-split form. -/
theorem exportLine_shape (c : ConfigItemM) :
    exportLine c = (S "ssgate:" ++ c.remark) ++
      (47 :: 47 :: b64encode (payloadJson c)) := by
  unfold exportLine
  rw [show S "//" = [47, 47] from by decide, List.append_assoc]
  rfl

/-- The per-line round trip: importing an exported line of a well-formed
configuration recovers exactly that configuration (modulo the freshly
generated UUID, which is not modelled). -/
theorem importLine_exportLine (c : ConfigItemM) (h : GoodConfig c) :
    importLine (exportLine c) = some c := by
  obtain ⟨hr, hd, hcoOk, hsoOk, hdd, hlastr, hnl⟩ := h
  have esg : S "ssgate:" = [115, 115, 103, 97, 116, 101, 58] := by decide
  have hok : Ok256 (payloadJson c) := payloadJson_ok c hr hd hcoOk hsoOk
  have h1 : containsSub [47, 47] (S "ssgate:" ++ c.remark) = false := by
    rw [esg]
    simp [containsSub_cons, listStartsWith, hdd]
  have h2 : (S "ssgate:" ++ c.remark).getLast? ≠ some 47 := by
    rcases hrem : c.remark with _ | ⟨x, xs⟩
    · rw [esg]; decide
    · rw [List.getLast?_append_of_ne_nil _ (by simp), ← hrem]
      exact hlastr
  have hsplit : splitFirst2 (exportLine c) =
      some (S "ssgate:" ++ c.remark, b64encode (payloadJson c)) := by
    rw [exportLine_shape]
    exact splitFirst2_at_sep _ _ h1 h2
  unfold importLine
  simp only [hsplit, expectLit_append, Option.getD_some, b64_roundtrip _ hok,
    parsePayload_payloadJson c hr hd hcoOk hsoOk]

/-- Unfolding lemma for `joinWithByte` on two or more lines. -/
theorem joinWithByte_cons₂ (sep : Nat) (a b : Str) (t : List Str) :
    joinWithByte sep (a :: b :: t) =
      a ++ sep :: joinWithByte sep (b :: t) := rfl

/-- Splitting on the separator undoes joining separator-free lines. -/
theorem splitOnByte_join_lines (lines : List Str)
    (h : ∀ l ∈ lines, (10 : Nat) ∉ l) (hne : lines ≠ []) :
    splitOnByte 10 (joinWithByte 10 lines) = lines := by
  induction lines with
  | nil => exact absurd rfl hne
  | cons l ls ih =>
    cases ls with
    | nil =>
      show splitOnByte 10 (joinWithByte 10 [l]) = [l]
      rw [show joinWithByte 10 [l] = l from rfl]
      exact splitOnByte_of_not_mem 10 l (h l (by simp))
    | cons l2 ls2 =>
      rw [joinWithByte_cons₂, splitOnByte_append 10 l _ (h l (by simp)),
        ih (fun x hx => h x (by simp [hx])) (by simp)]

/-- The exported line contains no newline. -/
theorem exportLine_no_newline (c : ConfigItemM)
    (hnl : (10 : Nat) ∉ c.remark) : (10 : Nat) ∉ exportLine c := by
  rw [exportLine_shape]
  intro hm
  rcases List.mem_append.mp hm with hm | hm
  · rcases List.mem_append.mp hm with hm | hm
    · rw [show S "ssgate:" = [115, 115, 103, 97, 116, 101, 58]
        from by decide] at hm
      simp at hm
    · exact hnl hm
  · rcases List.mem_cons.mp hm with h | hm
    · cases h
    · rcases List.mem_cons.mp hm with h | hm
      · cases h
      · have := (b64encode_mem_range (payloadJson c) 10 hm).1
        omega

/-- The exported line starts with the byte `s` (115). -/
theorem exportLine_head (c : ConfigItemM) :
    (exportLine c).head? = some 115 := by
  rw [exportLine_shape,
    show S "ssgate:" = [115, 115, 103, 97, 116, 101, 58] from by decide]
  rfl

/-- The exported line ends with a Base64 character. -/
theorem exportLine_last_nonws (c : ConfigItemM) :
    ∀ x, (exportLine c).getLast? = some x → wsByte x = false := by
  intro x hx
  rw [exportLine_shape, List.getLast?_append_of_ne_nil _ (by simp),
    show (47 : Nat) :: 47 :: b64encode (payloadJson c) =
      [47, 47] ++ b64encode (payloadJson c) from rfl,
    List.getLast?_append_of_ne_nil _
      (b64encode_ne_nil (payloadJson_ne_nil c))] at hx
  have hmem : x ∈ b64encode (payloadJson c) :=
    List.mem_of_mem_getLast? (by rw [hx]; exact Option.mem_def.mpr rfl)
  have := (b64encode_mem_range (payloadJson c) x hmem).1
  unfold wsByte
  simp only [Bool.or_eq_false_iff, decide_eq_false_iff_not]
  omega

/-- The exported line is non-empty. -/
theorem exportLine_ne_nil (c : ConfigItemM) : exportLine c ≠ [] := by
  intro h
  have := exportLine_head c
  rw [h] at this
  cases this

/-- The exported line carries the `ssgate:` prefix. -/
theorem exportLine_startsWith (c : ConfigItemM) :
    listStartsWith (S "ssgate:") (exportLine c) = true := by
  rw [exportLine_shape, List.append_assoc]
  exact listStartsWith_append _ _

/-- The head of a joined line list is the head of its first line. -/
theorem join_head (a : Str) (t : List Str) (ha : a ≠ []) :
    (joinWithByte 10 (a :: t)).head? = a.head? := by
  cases t with
  | nil => rfl
  | cons b t2 =>
    rw [joinWithByte_cons₂]
    cases a with
    | nil => exact absurd rfl ha
    | cons x xs => rfl

/-- The last byte of a joined line list is the last byte of its last line,
which is non-whitespace when every line ends non-whitespace. -/
theorem join_last_nonws (lines : List Str)
    (h : ∀ l ∈ lines, l ≠ [] ∧
      ∀ x, l.getLast? = some x → wsByte x = false) :
    ∀ x, (joinWithByte 10 lines).getLast? = some x → wsByte x = false := by
  induction lines with
  | nil => intro x hx; simp [joinWithByte] at hx
  | cons a t ih =>
    cases t with
    | nil => exact (h a (by simp)).2
    | cons b t2 =>
      intro x hx
      have hjoin_ne : joinWithByte 10 (b :: t2) ≠ [] := by
        cases t2 with
        | nil => exact (h b (by simp)).1
        | cons d t3 =>
          rw [joinWithByte_cons₂]
          intro he
          have hlen := congrArg List.length he
          simp only [List.length_append, List.length_cons,
            List.length_nil] at hlen
          omega
      rw [joinWithByte_cons₂, List.getLast?_append_of_ne_nil _ (by simp),
        show (10 : Nat) :: joinWithByte 10 (b :: t2) =
          [10] ++ joinWithByte 10 (b :: t2) from rfl,
        List.getLast?_append_of_ne_nil _ hjoin_ne] at hx
      exact ih (fun l hl => h l (by simp [hl])) x hx

/-- Mapping a function that fixes every element is the identity. -/
theorem map_eq_self {α : Type} (l : List α) (f : α → α)
    (h : ∀ a ∈ l, f a = a) : l.map f = l := by
  induction l with
  | nil => rfl
  | cons a t ih =>
    simp only [List.map_cons, h a (by simp), ih (fun x hx => h x (by simp [hx]))]

/-- Mapping functions that agree on every element gives equal lists. -/
theorem map_congr_mem {α β : Type} (l : List α) (f g : α → β)
    (h : ∀ a ∈ l, f a = g a) : l.map f = l.map g := by
  induction l with
  | nil => rfl
  | cons a t ih =>
    simp only [List.map_cons, h a (by simp), ih (fun x hx => h x (by simp [hx]))]

/-- `filterMap id` recovers a list of `some`s. -/
theorem filterMap_id_map_some {α : Type} (l : List α) :
    (l.map some).filterMap id = l := by
  induction l with
  | nil => rfl
  | cons a t ih => simp [ih]

/-- A list of `some`s has no `none` entries. -/
theorem filter_isNone_map_some {α : Type} (l : List α) :
    ((l.map some).filter (fun r => r.isNone)).length = 0 := by
  induction l with
  | nil => rfl
  | cons a t ih => simp [ih]

/-- Claim C6, amended: for every non-empty list of saved configurations
whose remarks contain no `//`, do not end in `/`, and contain no newline,
running `export_configs` and then `import_configs` on its output yields the
same list of configurations — same remark, domain, country and socks fields
in the same order, differing only in the freshly generated UUIDs — with
zero parse errors.  (Without these conditions the round trip fails: see the
counterexample.) -/
theorem export_import_roundtrip (cs : List ConfigItemM) (hne : cs ≠ [])
    (hgood : ∀ c ∈ cs, GoodConfig c) :
    import_configs (export_configs cs) = some (cs, 0) := by
  have hnlLines : ∀ l ∈ cs.map exportLine, (10 : Nat) ∉ l := by
    intro l hl
    obtain ⟨c, hc, rfl⟩ := List.mem_map.mp hl
    exact exportLine_no_newline c (hgood c hc).2.2.2.2.2.2
  have hsplitL : splitOnByte 10 (joinWithByte 10 (cs.map exportLine)) =
      cs.map exportLine :=
    splitOnByte_join_lines _ hnlLines (by simp [hne])
  have hheadData : ∀ x,
      (joinWithByte 10 (cs.map exportLine)).head? = some x →
        wsByte x = false := by
    cases cs with
    | nil => exact absurd rfl hne
    | cons c0 cs' =>
      intro x hx
      rw [List.map_cons, join_head _ _ (exportLine_ne_nil c0),
        exportLine_head c0] at hx
      cases hx
      rfl
  have hlastData : ∀ x,
      (joinWithByte 10 (cs.map exportLine)).getLast? = some x →
        wsByte x = false := by
    refine join_last_nonws _ ?_
    intro l hl
    obtain ⟨c, _, rfl⟩ := List.mem_map.mp hl
    exact ⟨exportLine_ne_nil c, exportLine_last_nonws c⟩
  have htrim : rustTrim (joinWithByte 10 (cs.map exportLine)) =
      joinWithByte 10 (cs.map exportLine) :=
    rustTrim_eq_self hheadData hlastData
  have hdataNe : joinWithByte 10 (cs.map exportLine) ≠ [] := by
    cases cs with
    | nil => exact absurd rfl hne
    | cons c0 cs' =>
      intro he
      have := join_head (exportLine c0) (cs'.map exportLine)
        (exportLine_ne_nil c0)
      rw [List.map_cons] at he
      rw [he] at this
      rw [exportLine_head c0] at this
      cases this
  have hmapTrim : ∀ l ∈ cs.map exportLine, rustTrim l = l := by
    intro l hl
    obtain ⟨c, _, rfl⟩ := List.mem_map.mp hl
    exact rustTrim_eq_self
      (by intro x hx; rw [exportLine_head c] at hx; cases hx; rfl)
      (exportLine_last_nonws c)
  have hfilter : ∀ l ∈ cs.map exportLine,
      listStartsWith (S "ssgate:") l = true := by
    intro l hl
    obtain ⟨c, _, rfl⟩ := List.mem_map.mp hl
    exact exportLine_startsWith c
  have hlineRT : ∀ c ∈ cs, importLine (exportLine c) = some c :=
    fun c hc => importLine_exportLine c (hgood c hc)
  unfold import_configs export_configs
  rw [htrim, if_neg hdataNe]
  simp only [hsplitL, map_eq_self _ rustTrim hmapTrim,
    List.filter_eq_self.mpr hfilter, List.map_map]
  rw [show cs.map (importLine ∘ exportLine) = cs.map some from
    map_congr_mem cs _ some hlineRT]
  rw [filterMap_id_map_some, filter_isNone_map_some]

/-- Claim C6, counterexample: the round trip fails as universally stated.
A configuration whose remark contains `//` ("a//b") exports to
`ssgate:a//b//<base64>`; import splits at the *first* `//`, hands `b//…` to
the Base64 decoder, which rejects it, so the config is lost (import returns
an empty list and one error).  The empty configuration list also fails:
exporting it yields the empty string, which import rejects outright. -/
theorem export_import_roundtrip_fails :
    import_configs (export_configs [⟨S "a//b", S "d", none, none⟩]) =
      some ([], 1) ∧
    import_configs (export_configs []) = none ∧
    ([] : List ConfigItemM) ≠ [⟨S "a//b", S "d", none, none⟩] := by
  refine ⟨by decide, by decide, by decide⟩

/-- Witness for `export_import_roundtrip` at a concrete configuration list
with all optional fields populated. -/
theorem export_import_roundtrip_witness :
    ([⟨S "cfg1", S "example.com", some (S "NL"), some ⟨S "u", S "p"⟩⟩] :
        List ConfigItemM) ≠ [] ∧
    (∀ c ∈ ([⟨S "cfg1", S "example.com", some (S "NL"),
        some ⟨S "u", S "p"⟩⟩] : List ConfigItemM), GoodConfig c) ∧
    import_configs (export_configs
        [⟨S "cfg1", S "example.com", some (S "NL"), some ⟨S "u", S "p"⟩⟩]) =
      some ([⟨S "cfg1", S "example.com", some (S "NL"),
        some ⟨S "u", S "p"⟩⟩], 0) := by
  have hgood : ∀ c ∈ ([⟨S "cfg1", S "example.com", some (S "NL"),
      some ⟨S "u", S "p"⟩⟩] : List ConfigItemM), GoodConfig c := by
    intro c hc
    simp only [List.mem_singleton] at hc
    subst hc
    refine ⟨by decide, by decide, ?_, ?_, by decide, by decide, by decide⟩
    · intro co hco
      cases hco
      decide
    · intro sa hsa
      cases hsa
      exact ⟨by decide, by decide⟩
  exact ⟨by decide, hgood,
    export_import_roundtrip _ (by decide) hgood⟩

end StreamGate
